import Mathlib

set_option maxRecDepth 8000

/-!
Verification of `src/update_pkgbuild_keyguard_bin.py`.

The script has two pure components, which we embed shallowly:

* `extract_release_info` walks a GitHub release payload (a JSON object with a
  `tag_name` string and an `assets` array of objects carrying `name` and
  `digest` strings) and produces `(version, release_tag, sha256_x86_64,
  sha256_aarch64)` or raises `ValueError`.  JSON objects with possibly-missing
  keys are modelled with `Option` fields; `dict.get(k, default)` becomes
  `Option.getD`.  Raising becomes `Except.error` carrying the exact message.

* `update_pkgbuild` rewrites five fields of a PKGBUILD text using
  `re.subn(pattern, repl, content, flags=re.MULTILINE)`.  Every pattern in the
  script is line-shaped (anchored `^...$`, with `.` never matching a newline),
  so a MULTILINE substitution over the whole text is exactly: split the text
  at newline characters, replace every matching line by the replacement text,
  and join with newlines; the count is the number of matching lines.  Text is
  modelled as `List Char` internally (`String.data`), so splitting and joining
  are ordinary recursive functions.

Python `re` details that matter and how they are modelled:
* `\d` is modelled as `Char.isDigit` (ASCII `0`-`9`); the asset names this
  script parses are ASCII.
* `re.search(r"Keyguard-(\d+\.\d+\.\d+)-linux", name)` is a leftmost match of
  a backtracking engine.  Because each `\d+` is immediately followed by a
  literal non-digit (`.` or `-`), greedy matching with backtracking is
  equivalent to taking the maximal digit run and requiring the literal next:
  a shorter run would leave a digit where the literal must be.  This is what
  `matchVersionAt` does at one position and `searchVersion` does leftmost.
* `re.sub` replacement-template escape processing (backslash sequences in the
  replacement string) is not modelled: `subAll` splices the replacement text
  in verbatim.  Python processes the replacement as a template — a backslash
  followed by `n` becomes a real newline, and an invalid group reference
  raises `re.error` even when nothing matches — which agrees with verbatim
  splicing exactly when the substituted values contain no backslash.  The
  idempotence and missing-field theorems, whose truth is sensitive to this
  boundary, therefore carry explicit backslash-free hypotheses on the
  substituted values, restricting them to the domain on which the embedding
  is Python's behaviour.
-/

/-- The single-quote character, written via its code point. -/
def quoteChar : Char := Char.ofNat 39

/-- The backslash character, written via its code point. -/
def backslashChar : Char := Char.ofNat 92

/-- Split a character list at newline characters, like Python
`str.split("\n")`: `splitLines "".data = [[]]`, and a trailing newline yields
a trailing empty line. -/
def splitLines : List Char → List (List Char)
  | [] => [[]]
  | c :: cs =>
    match splitLines cs with
    | [] => [[c]]
    | l :: ls => if c = '\n' then [] :: l :: ls else (c :: l) :: ls

/-- Join lines with newline characters, the inverse of `splitLines`. -/
def joinLines : List (List Char) → List Char
  | [] => []
  | [l] => l
  | l :: l' :: ls => l ++ '\n' :: joinLines (l' :: ls)

/-! ## Release-side data model (`extract_release_info`) -/

/-- One entry of the release's `assets` array.  `name` and `digest` are
`Option` because the Python code reads them with `asset.get("name", "")` and
`asset.get("digest", "")`. -/
structure Asset where
  name : Option String
  digest : Option String
deriving DecidableEq

/-- The fetched release payload: `tag_name` and `assets` are read with
`release.get(...)`, so both may be absent. -/
structure ReleaseRecord where
  tag_name : Option String
  assets : Option (List Asset)
deriving DecidableEq

/-- Python `asset.get("name", "")`. -/
def Asset.getName (a : Asset) : String := a.name.getD ""

/-- Python `asset.get("digest", "")`. -/
def Asset.getDigest (a : Asset) : String := a.digest.getD ""

/-- Python `name.endswith("-linux-x86_64.tar.gz")`. -/
def isX86Asset (a : Asset) : Bool :=
  "-linux-x86_64.tar.gz".data.isSuffixOf a.getName.data

/-- Python `name.endswith("-linux-aarch64.tar.gz")`. -/
def isAarchAsset (a : Asset) : Bool :=
  "-linux-aarch64.tar.gz".data.isSuffixOf a.getName.data

/-- The asset-classification loop of `extract_release_info` (lines 69-77 of
the script): a single left-to-right pass; an `x86_64` suffix match overwrites
the first slot, otherwise (`elif`) an `aarch64` suffix match overwrites the
second slot.  A later match overwrites an earlier one. -/
def assetStep (acc : Option Asset × Option Asset) (asset : Asset) :
    Option Asset × Option Asset :=
  if isX86Asset asset then (some asset, acc.2)
  else if isAarchAsset asset then (acc.1, some asset)
  else acc

def findAssets (assets : List Asset) : Option Asset × Option Asset :=
  assets.foldl assetStep (none, none)

/-- One attempt of `re.search(r"Keyguard-(\d+\.\d+\.\d+)-linux", s)` at a
fixed start position: the characters from that position on must begin with
`Keyguard-`, then three nonempty digit runs separated by `.`, then `-linux`.
Each `\d+` is taken maximal (`takeWhile`), which agrees with the backtracking
engine because the following literal is a non-digit (see the header note).
Returns the captured group. -/
def matchVersionAt (l : List Char) : Option (List Char) :=
  if "Keyguard-".data.isPrefixOf l then
    let r0 := l.drop "Keyguard-".data.length
    let d1 := r0.takeWhile Char.isDigit
    let r1 := r0.dropWhile Char.isDigit
    if d1 = [] then none
    else
      match r1 with
      | [] => none
      | c1 :: s1 =>
        if c1 = '.' then
          let d2 := s1.takeWhile Char.isDigit
          let r2 := s1.dropWhile Char.isDigit
          if d2 = [] then none
          else
            match r2 with
            | [] => none
            | c2 :: s2 =>
              if c2 = '.' then
                let d3 := s2.takeWhile Char.isDigit
                let r3 := s2.dropWhile Char.isDigit
                if d3 = [] then none
                else if "-linux".data.isPrefixOf r3 then
                  some (d1 ++ ('.' :: (d2 ++ ('.' :: d3))))
                else none
              else none
        else none
  else none

/-- Python `re.search`: try `matchVersionAt` at every position, leftmost first. -/
def searchVersion : List Char → Option (List Char)
  | [] => none
  | c :: cs =>
    match matchVersionAt (c :: cs) with
    | some v => some v
    | none => searchVersion cs

/-- The inner helper `extract_sha256` (lines 91-95): the `digest` field must
start with the literal `sha256:`; the hash is the rest, verbatim. -/
def extract_sha256 (asset : Asset) : Except String String :=
  if "sha256:".data.isPrefixOf asset.getDigest.data then
    .ok ⟨asset.getDigest.data.drop 7⟩
  else
    .error ("SHA256 digest not found for asset: " ++ asset.getName)

/-- The function `extract_release_info` (lines 48-100): tag, assets, the two architecture
artifacts, the version parsed from the x86_64 asset name, and the two digest
suffixes. -/
def extract_release_info (release : ReleaseRecord) :
    Except String (String × String × String × String) :=
  match release.tag_name with
  | none => .error "Release tag not found in API response"
  | some release_tag =>
    if release_tag = "" then .error "Release tag not found in API response"
    else
      let assets := release.assets.getD []
      if assets = [] then .error "No assets found in release"
      else
        match findAssets assets with
        | (none, _) => .error "Linux x86_64 artifact not found in release"
        | (some _, none) => .error "Linux aarch64 artifact not found in release"
        | (some x86Asset, some aarchAsset) =>
          match searchVersion x86Asset.getName.data with
          | none =>
            .error ("Could not extract version from asset name: " ++ x86Asset.getName)
          | some v =>
            match extract_sha256 x86Asset with
            | .error e => .error e
            | .ok sha256_x86_64 =>
              match extract_sha256 aarchAsset with
              | .error e => .error e
              | .ok sha256_aarch64 =>
                .ok (⟨v⟩, release_tag, sha256_x86_64, sha256_aarch64)

/-! ## Manifest side (`update_pkgbuild`) -/

/-- A line matching `^pkgver=.+$` (MULTILINE, `.` not matching newline):
starts with `pkgver=` followed by at least one character. -/
def pkgverPat (l : List Char) : Bool :=
  "pkgver=".data.isPrefixOf l && decide (7 < l.length)

/-- A line matching `^pkgrel=.+$`. -/
def pkgrelPat (l : List Char) : Bool :=
  "pkgrel=".data.isPrefixOf l && decide (7 < l.length)

/-- A line matching `^_releaseTag=.+$`. -/
def tagPat (l : List Char) : Bool :=
  "_releaseTag=".data.isPrefixOf l && decide (12 < l.length)

/-- A line matching `^sha256sums_x86_64=\(.+\)$`: the fixed prefix up to the
opening parenthesis, then at least one character, then a closing parenthesis
ending the line. -/
def shaX86Pat (l : List Char) : Bool :=
  "sha256sums_x86_64=(".data.isPrefixOf l && ")".data.isSuffixOf l
    && decide (21 ≤ l.length)

/-- A line matching `^sha256sums_aarch64=\(.+\)$`. -/
def shaAarchPat (l : List Char) : Bool :=
  "sha256sums_aarch64=(".data.isPrefixOf l && ")".data.isSuffixOf l
    && decide (22 ≤ l.length)

/-- Python `re.subn(pattern, repl, content, flags=re.MULTILINE)` for a line-shaped
pattern: replace every matching line by `repl`, return the new text and the
number of replacements.  The replacement text is spliced in verbatim;
Python's replacement-template escape processing is not applied, which agrees
with Python exactly on backslash-free replacements (see the header note). -/
def subAll (pat : List Char → Bool) (repl : List Char) (content : List Char) :
    List Char × Nat :=
  let ls := splitLines content
  (joinLines (ls.map fun l => if pat l then repl else l), (ls.filter pat).length)

/-- Replacement text `f"pkgver={version}"`. -/
def pkgverRepl (version : String) : List Char := "pkgver=".data ++ version.data

/-- Replacement text `"pkgrel=1"`. -/
def pkgrelRepl : List Char := "pkgrel=1".data

/-- Replacement text `f"_releaseTag='{release_tag}'"`. -/
def tagRepl (release_tag : String) : List Char :=
  "_releaseTag=".data ++ (quoteChar :: (release_tag.data ++ [quoteChar]))

/-- Replacement text `f"sha256sums_x86_64=('{sha256_x86_64}')"`. -/
def shaX86Repl (h : String) : List Char :=
  "sha256sums_x86_64=(".data ++ (quoteChar :: (h.data ++ [quoteChar, ')']))

/-- Replacement text `f"sha256sums_aarch64=('{sha256_aarch64}')"`. -/
def shaAarchRepl (h : String) : List Char :=
  "sha256sums_aarch64=(".data ++ (quoteChar :: (h.data ++ [quoteChar, ')']))

/-- The function `update_pkgbuild` (lines 103-182): read the current version from the
first `pkgver=` line, substitute `pkgver`, reset `pkgrel` to 1 only when the
version string changed, then substitute `_releaseTag` and the two checksum
arrays; each `count == 0` raises the corresponding `ValueError`. -/
def update_pkgbuild (content version release_tag sha256_x86_64 sha256_aarch64 :
    String) : Except String String :=
  match (splitLines content.data).find? pkgverPat with
  | none => .error "pkgver not found in PKGBUILD"
  | some line =>
    let current_version := line.drop 7
    let s1 := subAll pkgverPat (pkgverRepl version) content.data
    if s1.2 = 0 then .error "pkgver not found in PKGBUILD"
    else
      let step2 : Except String (List Char) :=
        if current_version ≠ version.data then
          let s2 := subAll pkgrelPat pkgrelRepl s1.1
          if s2.2 = 0 then .error "pkgrel not found in PKGBUILD" else .ok s2.1
        else .ok s1.1
      match step2 with
      | .error e => .error e
      | .ok c2 =>
        let s3 := subAll tagPat (tagRepl release_tag) c2
        if s3.2 = 0 then .error "_releaseTag not found in PKGBUILD"
        else
          let s4 := subAll shaX86Pat (shaX86Repl sha256_x86_64) s3.1
          if s4.2 = 0 then .error "sha256sums_x86_64 not found in PKGBUILD"
          else
            let s5 := subAll shaAarchPat (shaAarchRepl sha256_aarch64) s4.1
            if s5.2 = 0 then .error "sha256sums_aarch64 not found in PKGBUILD"
            else .ok ⟨s5.1⟩

/-- The spec's `ExtractedInfo` version pattern `\d+\.\d+\.\d+`, as a full
structural match of the whole string: three nonempty digit runs separated by
dots and nothing else.  This definition follows the spec's words and is used
to compare against what the code produces. -/
def versionShape (l : List Char) : Bool :=
  let d1 := l.takeWhile Char.isDigit
  let r1 := l.dropWhile Char.isDigit
  match r1 with
  | [] => false
  | c1 :: s1 =>
    if c1 = '.' then
      let d2 := s1.takeWhile Char.isDigit
      let r2 := s1.dropWhile Char.isDigit
      match r2 with
      | [] => false
      | c2 :: s2 =>
        if c2 = '.' then
          let d3 := s2.takeWhile Char.isDigit
          let r3 := s2.dropWhile Char.isDigit
          decide (d1 ≠ []) && decide (d2 ≠ []) && decide (d3 ≠ []) && decide (r3 = [])
        else false
    else false

/-- The per-line effect of one whole `update_pkgbuild` run on a single line,
with `ch` recording whether the version changed (so whether the `pkgrel`
substitution runs).  The five substitutions are applied in the script's
order, each testing its pattern on the line as left by the previous one. -/
def applySubs (ch : Bool) (version release_tag hx ha : String) (l : List Char) :
    List Char :=
  let l1 := if pkgverPat l then pkgverRepl version else l
  let l2 := if ch && pkgrelPat l1 then pkgrelRepl else l1
  let l3 := if tagPat l2 then tagRepl release_tag else l2
  let l4 := if shaX86Pat l3 then shaX86Repl hx else l3
  if shaAarchPat l4 then shaAarchRepl ha else l4

/-! ## Concrete inputs for witnesses and counterexamples -/

/-- A line that is none of the five field lines. -/
def isFieldLine (l : List Char) : Bool :=
  pkgverPat l || pkgrelPat l || tagPat l || shaX86Pat l || shaAarchPat l

/-- A release whose digests carry the `sha256:` prefix but whose hash texts
are not 64-character hexadecimal strings. -/
def c8x86 : Asset :=
  { name := some "Keyguard-1.2.3-linux-x86_64.tar.gz", digest := some "sha256:zz" }

def c8aarch : Asset :=
  { name := some "Keyguard-1.2.3-linux-aarch64.tar.gz", digest := some "sha256:ww" }

def c8release : ReleaseRecord :=
  { tag_name := some "v1", assets := some [c8x86, c8aarch] }

/-- A manifest with two lines matching the `pkgver` pattern. -/
def c7Input : String :=
  "pkgver=1.0.0\npkgver=2.0.0\npkgrel=1\n_releaseTag=v1\nsha256sums_x86_64=(a)\nsha256sums_aarch64=(b)\n"

/-- A well-formed five-field manifest. -/
def c5Input : String :=
  "pkgver=1.0.0\npkgrel=1\n_releaseTag=v1\nsha256sums_x86_64=(a)\nsha256sums_aarch64=(b)\n"

/-- A release tag containing a newline character. -/
def c5Tag : String := "v2\n_releaseTag=x"

/-- The single-quote character as a one-character string, for writing
expected outputs. -/
def quoteStr : String := ⟨[quoteChar]⟩

def w1x86 : Asset :=
  { name := some "Keyguard-2.3.3-linux-x86_64.tar.gz", digest := some "sha256:aaa" }

def w1aarch : Asset :=
  { name := some "Keyguard-2.3.3-linux-aarch64.tar.gz", digest := some "sha256:bbb" }

def w1release : ReleaseRecord :=
  { tag_name := some "v2.3.3", assets := some [w1x86, w1aarch] }

def w3Input : String :=
  "pkgver=1.0.0\npkgrel=5\n_releaseTag=v1\nsha256sums_x86_64=(o1)\nsha256sums_aarch64=(o2)\n"

def w3OutA : String :=
  "pkgver=1.0.0\npkgrel=5\n_releaseTag=" ++ quoteStr ++ "v1" ++ quoteStr
    ++ "\nsha256sums_x86_64=(" ++ quoteStr ++ "h1" ++ quoteStr
    ++ ")\nsha256sums_aarch64=(" ++ quoteStr ++ "h2" ++ quoteStr ++ ")\n"

def w3OutB : String :=
  "pkgver=1.0.1\npkgrel=1\n_releaseTag=" ++ quoteStr ++ "v1" ++ quoteStr
    ++ "\nsha256sums_x86_64=(" ++ quoteStr ++ "h1" ++ quoteStr
    ++ ")\nsha256sums_aarch64=(" ++ quoteStr ++ "h2" ++ quoteStr ++ ")\n"

def w6Input : String :=
  "# Maintainer\npkgname=keyguard-bin\npkgver=2.3.2\npkgrel=3\n_releaseTag=v2.3.2\nsha256sums_x86_64=(old1)\nsha256sums_aarch64=(old2)\n"

def w6Out : String :=
  "# Maintainer\npkgname=keyguard-bin\npkgver=2.3.3\npkgrel=1\n_releaseTag="
    ++ quoteStr ++ "v2.3.3" ++ quoteStr ++ "\nsha256sums_x86_64=("
    ++ quoteStr ++ "abc123" ++ quoteStr ++ ")\nsha256sums_aarch64=("
    ++ quoteStr ++ "def456" ++ quoteStr ++ ")\n"

def w9a : Asset :=
  { name := some "Keyguard-1.0.0-linux-x86_64.tar.gz", digest := some "sha256:first" }

def w9b : Asset :=
  { name := some "Keyguard-2.0.0-linux-x86_64.tar.gz", digest := some "sha256:second" }

def w9aarch : Asset :=
  { name := some "Keyguard-2.0.0-linux-aarch64.tar.gz", digest := some "sha256:third" }

def w9release : ReleaseRecord :=
  { tag_name := some "vdup", assets := some [w9a, w9aarch, w9b] }

def w10x86 : Asset :=
  { name := some "foo-Keyguard-9.8.7-linux-x86_64.tar.gz", digest := some "sha256:hx" }

def w10aarch : Asset :=
  { name := some "Keyguard-9.8.7-linux-aarch64.tar.gz", digest := some "sha256:hy" }

def w10release : ReleaseRecord :=
  { tag_name := some "v9", assets := some [w10x86, w10aarch] }

/-! ## Line-splitting lemmas -/

theorem splitLines_ne_nil (s : List Char) : splitLines s ≠ [] := by
  induction s with
  | nil => simp [splitLines]
  | cons c cs ih =>
    rw [splitLines]
    rcases hsp : splitLines cs with _ | ⟨l, ls⟩
    · exact absurd hsp ih
    · show ¬(if c = '\n' then [] :: l :: ls else (c :: l) :: ls) = []
      split <;> simp

theorem joinLines_splitLines (s : List Char) : joinLines (splitLines s) = s := by
  induction s with
  | nil => rfl
  | cons c cs ih =>
    rw [splitLines]
    rcases hsp : splitLines cs with _ | ⟨l, ls⟩
    · exact absurd hsp (splitLines_ne_nil cs)
    · rw [hsp] at ih
      show joinLines (if c = '\n' then [] :: l :: ls else (c :: l) :: ls) = c :: cs
      by_cases hc : c = '\n'
      · subst hc
        rw [if_pos rfl]
        cases ls <;> simpa [joinLines] using ih
      · rw [if_neg hc]
        cases ls <;> simpa [joinLines] using congrArg (c :: ·) ih

theorem mem_splitLines_no_nl (s : List Char) :
    ∀ l ∈ splitLines s, '\n' ∉ l := by
  induction s with
  | nil => intro l hl; simp [splitLines] at hl; simp [hl]
  | cons c cs ih =>
    rw [splitLines]
    rcases hsp : splitLines cs with _ | ⟨l0, ls0⟩
    · exact absurd hsp (splitLines_ne_nil cs)
    · intro l hl
      have hl' : l ∈ (if c = '\n' then [] :: l0 :: ls0 else (c :: l0) :: ls0) := hl
      have ih' := hsp ▸ ih
      by_cases hc : c = '\n'
      · rw [if_pos hc] at hl'
        rcases List.mem_cons.mp hl' with h1 | h1
        · simp [h1]
        · exact ih' l h1
      · rw [if_neg hc] at hl'
        rcases List.mem_cons.mp hl' with h1 | h1
        · subst h1
          intro hmem
          rcases List.mem_cons.mp hmem with h2 | h2
          · exact hc h2.symm
          · exact ih' l0 (List.mem_cons_self l0 ls0) h2
        · exact ih' l (List.mem_cons.mpr (Or.inr h1))

theorem splitLines_single (l : List Char) (h : '\n' ∉ l) : splitLines l = [l] := by
  induction l with
  | nil => rfl
  | cons c cs ih =>
    have hc : c ≠ '\n' := fun hc => h (hc ▸ List.mem_cons_self c cs)
    have hcs : '\n' ∉ cs := fun hm => h (List.mem_cons.mpr (Or.inr hm))
    rw [splitLines, ih hcs]
    show (if c = '\n' then [] :: cs :: [] else (c :: cs) :: []) = [c :: cs]
    rw [if_neg hc]

theorem splitLines_append (l rest : List Char) (h : '\n' ∉ l) :
    splitLines (l ++ '\n' :: rest) = l :: splitLines rest := by
  induction l with
  | nil =>
    rw [List.nil_append, splitLines]
    rcases hr : splitLines rest with _ | ⟨r, rs⟩
    · exact absurd hr (splitLines_ne_nil rest)
    · show (if '\n' = '\n' then [] :: r :: rs else ('\n' :: r) :: rs) = [] :: r :: rs
      rw [if_pos rfl]
  | cons c cs ih =>
    have hc : c ≠ '\n' := fun hc => h (hc ▸ List.mem_cons_self c cs)
    have hcs : '\n' ∉ cs := fun hm => h (List.mem_cons.mpr (Or.inr hm))
    rw [List.cons_append, splitLines, ih hcs]
    rcases hr : splitLines rest with _ | ⟨r, rs⟩
    · exact absurd hr (splitLines_ne_nil rest)
    · show (if c = '\n' then [] :: cs :: r :: rs else (c :: cs) :: r :: rs)
        = (c :: cs) :: r :: rs
      rw [if_neg hc]

theorem splitLines_joinLines (ls : List (List Char)) (hne : ls ≠ [])
    (h : ∀ l ∈ ls, '\n' ∉ l) : splitLines (joinLines ls) = ls := by
  induction ls with
  | nil => exact absurd rfl hne
  | cons l ls ih =>
    cases ls with
    | nil =>
      show splitLines (joinLines [l]) = [l]
      rw [joinLines]
      exact splitLines_single l (h l (List.mem_cons_self l []))
    | cons l2 ls2 =>
      rw [joinLines]
      rw [splitLines_append l _ (h l (List.mem_cons_self l _))]
      rw [ih (by simp) (fun x hx => h x (List.mem_cons.mpr (Or.inr hx)))]

theorem splitLines_subAll (pat : List Char → Bool) (repl : List Char)
    (s : List Char) (hrepl : '\n' ∉ repl) :
    splitLines (subAll pat repl s).1 =
      (splitLines s).map (fun l => if pat l then repl else l) := by
  show splitLines (joinLines ((splitLines s).map fun l => if pat l then repl else l)) = _
  apply splitLines_joinLines
  · simp [splitLines_ne_nil s]
  · intro l hl
    rcases List.mem_map.mp hl with ⟨l0, hl0, hmap⟩
    by_cases hp : pat l0
    · rw [if_pos hp] at hmap; exact hmap ▸ hrepl
    · rw [if_neg hp] at hmap; exact hmap ▸ mem_splitLines_no_nl s l0 hl0

/-! ## Pattern exclusivity and replacement-line facts -/

theorem prefix_excl {p q : List Char} (hpq : ¬ p <+: q) (hqp : ¬ q <+: p)
    {l : List Char} (h1 : p.isPrefixOf l = true) : q.isPrefixOf l = false := by
  cases hq : q.isPrefixOf l with
  | false => rfl
  | true =>
    rcases List.prefix_or_prefix_of_prefix ( List.isPrefixOf_iff_prefix.mp h1)
        ( List.isPrefixOf_iff_prefix.mp hq) with hc | hc
    · exact absurd hc hpq
    · exact absurd hc hqp

theorem suffix_excl_x86_aarch {l : List Char}
    (h : "-linux-x86_64.tar.gz".data.isSuffixOf l = true) :
    "-linux-aarch64.tar.gz".data.isSuffixOf l = false := by
  cases ha : "-linux-aarch64.tar.gz".data.isSuffixOf l with
  | false => rfl
  | true =>
    rcases List.suffix_or_suffix_of_suffix (List.isSuffixOf_iff_suffix.mp h)
        (List.isSuffixOf_iff_suffix.mp ha) with hc | hc
    · exact absurd hc (by decide)
    · exact absurd hc (by decide)

theorem excl_pkgver_pkgrel {l : List Char} (h : pkgverPat l = true) :
    pkgrelPat l = false := by
  have hp := ((Bool.and_eq_true _ _).mp h).1
  have hq := @prefix_excl "pkgver=".data "pkgrel=".data (by decide) (by decide) l hp
  simp [pkgrelPat, hq]

theorem excl_pkgver_tag {l : List Char} (h : pkgverPat l = true) :
    tagPat l = false := by
  have hp := ((Bool.and_eq_true _ _).mp h).1
  have hq := @prefix_excl "pkgver=".data "_releaseTag=".data (by decide) (by decide) l hp
  simp [tagPat, hq]

theorem excl_pkgver_shaX {l : List Char} (h : pkgverPat l = true) :
    shaX86Pat l = false := by
  have hp := ((Bool.and_eq_true _ _).mp h).1
  have hq := @prefix_excl "pkgver=".data "sha256sums_x86_64=(".data (by decide) (by decide) l hp
  simp [shaX86Pat, hq]

theorem excl_pkgver_shaA {l : List Char} (h : pkgverPat l = true) :
    shaAarchPat l = false := by
  have hp := ((Bool.and_eq_true _ _).mp h).1
  have hq := @prefix_excl "pkgver=".data "sha256sums_aarch64=(".data (by decide) (by decide) l hp
  simp [shaAarchPat, hq]

theorem excl_pkgrel_tag {l : List Char} (h : pkgrelPat l = true) :
    tagPat l = false := by
  have hp := ((Bool.and_eq_true _ _).mp h).1
  have hq := @prefix_excl "pkgrel=".data "_releaseTag=".data (by decide) (by decide) l hp
  simp [tagPat, hq]

theorem excl_pkgrel_shaX {l : List Char} (h : pkgrelPat l = true) :
    shaX86Pat l = false := by
  have hp := ((Bool.and_eq_true _ _).mp h).1
  have hq := @prefix_excl "pkgrel=".data "sha256sums_x86_64=(".data (by decide) (by decide) l hp
  simp [shaX86Pat, hq]

theorem excl_pkgrel_shaA {l : List Char} (h : pkgrelPat l = true) :
    shaAarchPat l = false := by
  have hp := ((Bool.and_eq_true _ _).mp h).1
  have hq := @prefix_excl "pkgrel=".data "sha256sums_aarch64=(".data (by decide) (by decide) l hp
  simp [shaAarchPat, hq]

theorem excl_tag_shaX {l : List Char} (h : tagPat l = true) :
    shaX86Pat l = false := by
  have hp := ((Bool.and_eq_true _ _).mp h).1
  have hq := @prefix_excl "_releaseTag=".data "sha256sums_x86_64=(".data (by decide) (by decide) l hp
  simp [shaX86Pat, hq]

theorem excl_tag_shaA {l : List Char} (h : tagPat l = true) :
    shaAarchPat l = false := by
  have hp := ((Bool.and_eq_true _ _).mp h).1
  have hq := @prefix_excl "_releaseTag=".data "sha256sums_aarch64=(".data (by decide) (by decide) l hp
  simp [shaAarchPat, hq]

theorem excl_shaX_shaA {l : List Char} (h : shaX86Pat l = true) :
    shaAarchPat l = false := by
  have hp := ((Bool.and_eq_true _ _).mp (((Bool.and_eq_true _ _).mp h).1)).1
  have hq := @prefix_excl "sha256sums_x86_64=(".data "sha256sums_aarch64=(".data (by decide) (by decide) l hp
  simp [shaAarchPat, hq]

theorem isPrefixOf_append_self (p t : List Char) : p.isPrefixOf (p ++ t) = true :=
  List.isPrefixOf_iff_prefix.mpr (List.prefix_append p t)

theorem pkgverPat_pkgverRepl (v : String) (hv : v ≠ "") :
    pkgverPat (pkgverRepl v) = true := by
  have hv' : v.data ≠ [] := fun h => hv (by cases v; simp_all)
  have hpos : 0 < v.data.length := List.length_pos.mpr hv'
  have hpre : "pkgver=".data.isPrefixOf (pkgverRepl v) = true :=
    isPrefixOf_append_self _ _
  have hlen : decide (7 < (pkgverRepl v).length) = true := by
    apply decide_eq_true
    simp only [pkgverRepl, List.length_append, List.length_cons, List.length_nil]
    omega
  show ("pkgver=".data.isPrefixOf (pkgverRepl v) && decide (7 < (pkgverRepl v).length)) = true
  rw [hpre, hlen]
  rfl

theorem pkgrelPat_pkgrelRepl : pkgrelPat pkgrelRepl = true := by decide

theorem tagPat_tagRepl (t : String) : tagPat (tagRepl t) = true := by
  have hpre : "_releaseTag=".data.isPrefixOf (tagRepl t) = true :=
    isPrefixOf_append_self _ _
  have hlen : decide (12 < (tagRepl t).length) = true := by
    apply decide_eq_true
    simp only [tagRepl, List.length_append, List.length_cons, List.length_nil]
    omega
  show ("_releaseTag=".data.isPrefixOf (tagRepl t) && decide (12 < (tagRepl t).length)) = true
  rw [hpre, hlen]
  rfl

theorem shaX86Pat_shaX86Repl (h : String) : shaX86Pat (shaX86Repl h) = true := by
  have hpre : "sha256sums_x86_64=(".data.isPrefixOf (shaX86Repl h) = true :=
    isPrefixOf_append_self _ _
  have hsuf : (")".data).isSuffixOf (shaX86Repl h) = true := by
    apply List.isSuffixOf_iff_suffix.mpr
    refine ⟨"sha256sums_x86_64=(".data ++ (quoteChar :: (h.data ++ [quoteChar])), ?_⟩
    show _ = "sha256sums_x86_64=(".data ++ (quoteChar :: (h.data ++ [quoteChar, ')']))
    simp [List.append_assoc]
  have hlen : decide (21 ≤ (shaX86Repl h).length) = true := by
    apply decide_eq_true
    simp only [shaX86Repl, List.length_append, List.length_cons, List.length_nil]
    omega
  show ("sha256sums_x86_64=(".data.isPrefixOf (shaX86Repl h)
      && (")".data).isSuffixOf (shaX86Repl h)
      && decide (21 ≤ (shaX86Repl h).length)) = true
  rw [hpre, hsuf, hlen]
  rfl

theorem shaAarchPat_shaAarchRepl (h : String) :
    shaAarchPat (shaAarchRepl h) = true := by
  have hpre : "sha256sums_aarch64=(".data.isPrefixOf (shaAarchRepl h) = true :=
    isPrefixOf_append_self _ _
  have hsuf : (")".data).isSuffixOf (shaAarchRepl h) = true := by
    apply List.isSuffixOf_iff_suffix.mpr
    refine ⟨"sha256sums_aarch64=(".data ++ (quoteChar :: (h.data ++ [quoteChar])), ?_⟩
    show _ = "sha256sums_aarch64=(".data ++ (quoteChar :: (h.data ++ [quoteChar, ')']))
    simp [List.append_assoc]
  have hlen : decide (22 ≤ (shaAarchRepl h).length) = true := by
    apply decide_eq_true
    simp only [shaAarchRepl, List.length_append, List.length_cons, List.length_nil]
    omega
  show ("sha256sums_aarch64=(".data.isPrefixOf (shaAarchRepl h)
      && (")".data).isSuffixOf (shaAarchRepl h)
      && decide (22 ≤ (shaAarchRepl h).length)) = true
  rw [hpre, hsuf, hlen]
  rfl

theorem pkgrelPat_pkgverRepl (v : String) : pkgrelPat (pkgverRepl v) = false := rfl

theorem tagPat_pkgverRepl (v : String) : tagPat (pkgverRepl v) = false := rfl

theorem shaX86Pat_pkgverRepl (v : String) : shaX86Pat (pkgverRepl v) = false := rfl

theorem shaAarchPat_pkgverRepl (v : String) : shaAarchPat (pkgverRepl v) = false := rfl

theorem pkgverPat_pkgrelRepl : pkgverPat pkgrelRepl = false := by decide

theorem tagPat_pkgrelRepl : tagPat pkgrelRepl = false := by decide

theorem shaX86Pat_pkgrelRepl : shaX86Pat pkgrelRepl = false := by decide

theorem shaAarchPat_pkgrelRepl : shaAarchPat pkgrelRepl = false := by decide

theorem pkgverPat_tagRepl (t : String) : pkgverPat (tagRepl t) = false := rfl

theorem pkgrelPat_tagRepl (t : String) : pkgrelPat (tagRepl t) = false := rfl

theorem shaX86Pat_tagRepl (t : String) : shaX86Pat (tagRepl t) = false := rfl

theorem shaAarchPat_tagRepl (t : String) : shaAarchPat (tagRepl t) = false := rfl

theorem pkgverPat_shaX86Repl (h : String) : pkgverPat (shaX86Repl h) = false := rfl

theorem pkgrelPat_shaX86Repl (h : String) : pkgrelPat (shaX86Repl h) = false := rfl

theorem tagPat_shaX86Repl (h : String) : tagPat (shaX86Repl h) = false := rfl

theorem shaAarchPat_shaX86Repl (h : String) : shaAarchPat (shaX86Repl h) = false := rfl

theorem pkgverPat_shaAarchRepl (h : String) : pkgverPat (shaAarchRepl h) = false := rfl

theorem pkgrelPat_shaAarchRepl (h : String) : pkgrelPat (shaAarchRepl h) = false := rfl

theorem tagPat_shaAarchRepl (h : String) : tagPat (shaAarchRepl h) = false := rfl

theorem shaX86Pat_shaAarchRepl (h : String) : shaX86Pat (shaAarchRepl h) = false := rfl

/-! ## Newline-freeness of replacement lines -/

theorem nl_pkgverRepl (v : String) (hv : '\n' ∉ v.data) : '\n' ∉ pkgverRepl v := by
  intro h
  rcases List.mem_append.mp h with h | h
  · exact absurd h (by decide)
  · exact hv h

theorem nl_pkgrelRepl : '\n' ∉ pkgrelRepl := by decide

theorem nl_tagRepl (t : String) (ht : '\n' ∉ t.data) : '\n' ∉ tagRepl t := by
  intro h
  rcases List.mem_append.mp h with h | h
  · exact absurd h (by decide)
  · rcases List.mem_cons.mp h with h | h
    · exact absurd h (by decide)
    · rcases List.mem_append.mp h with h | h
      · exact ht h
      · exact absurd h (by decide)

theorem nl_shaX86Repl (x : String) (hx : '\n' ∉ x.data) : '\n' ∉ shaX86Repl x := by
  intro h
  rcases List.mem_append.mp h with h | h
  · exact absurd h (by decide)
  · rcases List.mem_cons.mp h with h | h
    · exact absurd h (by decide)
    · rcases List.mem_append.mp h with h | h
      · exact hx h
      · exact absurd h (by decide)

theorem nl_shaAarchRepl (x : String) (hx : '\n' ∉ x.data) : '\n' ∉ shaAarchRepl x := by
  intro h
  rcases List.mem_append.mp h with h | h
  · exact absurd h (by decide)
  · rcases List.mem_cons.mp h with h | h
    · exact absurd h (by decide)
    · rcases List.mem_append.mp h with h | h
      · exact hx h
      · exact absurd h (by decide)

/-! ## The per-line view of one update run -/

theorem applySubs_eq (ch : Bool) (v t hx ha : String) (l : List Char) :
    applySubs ch v t hx ha l =
      if pkgverPat l then pkgverRepl v
      else if ch && pkgrelPat l then pkgrelRepl
      else if tagPat l then tagRepl t
      else if shaX86Pat l then shaX86Repl hx
      else if shaAarchPat l then shaAarchRepl ha
      else l := by
  by_cases h1 : pkgverPat l
  · simp [applySubs, h1, pkgrelPat_pkgverRepl, tagPat_pkgverRepl,
      shaX86Pat_pkgverRepl, shaAarchPat_pkgverRepl]
  · by_cases h2 : ch && pkgrelPat l
    · simp [applySubs, h1, h2, tagPat_pkgrelRepl, shaX86Pat_pkgrelRepl,
        shaAarchPat_pkgrelRepl]
    · by_cases h3 : tagPat l
      · simp [applySubs, h1, h2, h3, shaX86Pat_tagRepl, shaAarchPat_tagRepl]
      · by_cases h4 : shaX86Pat l
        · simp [applySubs, h1, h2, h3, h4, shaAarchPat_shaX86Repl]
        · by_cases h5 : shaAarchPat l <;> simp [applySubs, h1, h2, h3, h4, h5]

theorem applySubs_no_nl (ch : Bool) (v t hx ha : String) (l : List Char)
    (hv : '\n' ∉ v.data) (ht : '\n' ∉ t.data) (hhx : '\n' ∉ hx.data)
    (hha : '\n' ∉ ha.data) (hl : '\n' ∉ l) :
    '\n' ∉ applySubs ch v t hx ha l := by
  rw [applySubs_eq]
  split_ifs
  · exact nl_pkgverRepl v hv
  · exact nl_pkgrelRepl
  · exact nl_tagRepl t ht
  · exact nl_shaX86Repl hx hhx
  · exact nl_shaAarchRepl ha hha
  · exact hl

theorem pkgverPat_applySubs (ch : Bool) (v t hx ha : String) (l : List Char)
    (h : pkgverPat (applySubs ch v t hx ha l) = true) :
    applySubs ch v t hx ha l = pkgverRepl v := by
  rw [applySubs_eq] at h ⊢
  split_ifs at h ⊢ with h1 h2 h3 h4 h5
  · rfl
  · exact absurd h (by rw [pkgverPat_pkgrelRepl]; simp)
  · exact absurd h (by rw [pkgverPat_tagRepl]; simp)
  · exact absurd h (by rw [pkgverPat_shaX86Repl]; simp)
  · exact absurd h (by rw [pkgverPat_shaAarchRepl]; simp)
  · exact absurd h h1

theorem applySubs_fix (ch : Bool) (v t hx ha : String) (hv : v ≠ "")
    (l : List Char) :
    applySubs false v t hx ha (applySubs ch v t hx ha l) =
      applySubs ch v t hx ha l := by
  rw [applySubs_eq ch]
  split_ifs with h1 h2 h3 h4 h5
  · rw [applySubs_eq, if_pos (pkgverPat_pkgverRepl v hv)]
  · rw [applySubs_eq]
    simp [pkgverPat_pkgrelRepl, tagPat_pkgrelRepl, shaX86Pat_pkgrelRepl,
      shaAarchPat_pkgrelRepl]
  · rw [applySubs_eq]
    simp [pkgverPat_tagRepl, pkgrelPat_tagRepl, tagPat_tagRepl,
      shaX86Pat_tagRepl, shaAarchPat_tagRepl]
  · rw [applySubs_eq]
    simp [pkgverPat_shaX86Repl, pkgrelPat_shaX86Repl, tagPat_shaX86Repl,
      shaX86Pat_shaX86Repl, shaAarchPat_shaX86Repl]
  · rw [applySubs_eq]
    simp [pkgverPat_shaAarchRepl, pkgrelPat_shaAarchRepl, tagPat_shaAarchRepl,
      shaX86Pat_shaAarchRepl, shaAarchPat_shaAarchRepl]
  · rw [applySubs_eq]
    simp [h1, h3, h4, h5]

/-! ## Later patterns are untouched by earlier substitution stages -/

theorem pkgrelPat_stage1 (v : String) (l : List Char) :
    pkgrelPat (if pkgverPat l then pkgverRepl v else l) = pkgrelPat l := by
  by_cases h : pkgverPat l
  · rw [if_pos h, pkgrelPat_pkgverRepl, excl_pkgver_pkgrel h]
  · rw [if_neg h]

theorem tagPat_stage1 (v : String) (l : List Char) :
    tagPat (if pkgverPat l then pkgverRepl v else l) = tagPat l := by
  by_cases h : pkgverPat l
  · rw [if_pos h, tagPat_pkgverRepl, excl_pkgver_tag h]
  · rw [if_neg h]

theorem shaX86Pat_stage1 (v : String) (l : List Char) :
    shaX86Pat (if pkgverPat l then pkgverRepl v else l) = shaX86Pat l := by
  by_cases h : pkgverPat l
  · rw [if_pos h, shaX86Pat_pkgverRepl, excl_pkgver_shaX h]
  · rw [if_neg h]

theorem shaAarchPat_stage1 (v : String) (l : List Char) :
    shaAarchPat (if pkgverPat l then pkgverRepl v else l) = shaAarchPat l := by
  by_cases h : pkgverPat l
  · rw [if_pos h, shaAarchPat_pkgverRepl, excl_pkgver_shaA h]
  · rw [if_neg h]

theorem tagPat_stage2 (l : List Char) :
    tagPat (if pkgrelPat l then pkgrelRepl else l) = tagPat l := by
  by_cases h : pkgrelPat l
  · rw [if_pos h, tagPat_pkgrelRepl, excl_pkgrel_tag h]
  · rw [if_neg h]

theorem shaX86Pat_stage2 (l : List Char) :
    shaX86Pat (if pkgrelPat l then pkgrelRepl else l) = shaX86Pat l := by
  by_cases h : pkgrelPat l
  · rw [if_pos h, shaX86Pat_pkgrelRepl, excl_pkgrel_shaX h]
  · rw [if_neg h]

theorem shaAarchPat_stage2 (l : List Char) :
    shaAarchPat (if pkgrelPat l then pkgrelRepl else l) = shaAarchPat l := by
  by_cases h : pkgrelPat l
  · rw [if_pos h, shaAarchPat_pkgrelRepl, excl_pkgrel_shaA h]
  · rw [if_neg h]

theorem shaX86Pat_stage3 (t : String) (l : List Char) :
    shaX86Pat (if tagPat l then tagRepl t else l) = shaX86Pat l := by
  by_cases h : tagPat l
  · rw [if_pos h, shaX86Pat_tagRepl, excl_tag_shaX h]
  · rw [if_neg h]

theorem shaAarchPat_stage3 (t : String) (l : List Char) :
    shaAarchPat (if tagPat l then tagRepl t else l) = shaAarchPat l := by
  by_cases h : tagPat l
  · rw [if_pos h, shaAarchPat_tagRepl, excl_tag_shaA h]
  · rw [if_neg h]

theorem shaAarchPat_stage4 (x : String) (l : List Char) :
    shaAarchPat (if shaX86Pat l then shaX86Repl x else l) = shaAarchPat l := by
  by_cases h : shaX86Pat l
  · rw [if_pos h, shaAarchPat_shaX86Repl, excl_shaX_shaA h]
  · rw [if_neg h]

/-! ## Generic list helpers -/

theorem filter_length_map_eq {α : Type} (f : α → α) (p : α → Bool) (ls : List α)
    (hf : ∀ l ∈ ls, p (f l) = p l) :
    ((ls.map f).filter p).length = (ls.filter p).length := by
  induction ls with
  | nil => rfl
  | cons a as ih =>
    have ih' := ih (fun l hl => hf l (List.mem_cons.mpr (Or.inr hl)))
    simp only [List.map_cons, List.filter_cons]
    rw [hf a (List.mem_cons_self a as)]
    by_cases h : p a
    · simp [h, ih']
    · simp [h, ih']

theorem filter_len_pos_of_find? {α : Type} {p : α → Bool} {ls : List α} {a : α}
    (h : ls.find? p = some a) : (ls.filter p).length ≠ 0 := by
  have hm := List.mem_of_find?_eq_some h
  have hp := List.find?_some h
  have hmem : a ∈ ls.filter p := List.mem_filter.mpr ⟨hm, hp⟩
  intro h0
  rw [List.length_eq_zero] at h0
  rw [h0] at hmem
  exact absurd hmem (List.not_mem_nil a)

theorem find?_of_mem_of_pred {α : Type} {p : α → Bool} {ls : List α} {a : α}
    (hm : a ∈ ls) (hp : p a = true) : ∃ b, ls.find? p = some b := by
  cases hf : ls.find? p with
  | some b => exact ⟨b, rfl⟩
  | none => exact absurd hp (by simpa using List.find?_eq_none.mp hf a hm)

theorem find?_map_eq {α : Type} (f : α → α) (p : α → Bool) (ls : List α) (c : α)
    (hall : ∀ l ∈ ls, p (f l) = true → f l = c)
    (hex : ∃ l ∈ ls, p (f l) = true) :
    (ls.map f).find? p = some c := by
  induction ls with
  | nil => rcases hex with ⟨l, hl, _⟩; exact absurd hl (List.not_mem_nil l)
  | cons a as ih =>
    rw [List.map_cons]
    by_cases h : p (f a)
    · rw [List.find?_cons_of_pos _ h]
      rw [hall a (List.mem_cons_self a as) h]
    · rw [List.find?_cons_of_neg _ h]
      apply ih
      · exact fun l hl => hall l (List.mem_cons.mpr (Or.inr hl))
      · rcases hex with ⟨l, hl, hp⟩
        rcases List.mem_cons.mp hl with rfl | hl'
        · exact absurd hp h
        · exact ⟨l, hl', hp⟩

theorem find?_congr_pred {α : Type} (p q : α → Bool) (ls : List α)
    (h : ∀ a ∈ ls, p a = q a) : ls.find? p = ls.find? q := by
  induction ls with
  | nil => rfl
  | cons a as ih =>
    have ha := h a (List.mem_cons_self a as)
    have ih' := ih (fun b hb => h b (List.mem_cons.mpr (Or.inr hb)))
    by_cases hp : p a
    · rw [List.find?_cons_of_pos _ hp, List.find?_cons_of_pos _ (ha ▸ hp)]
    · rw [List.find?_cons_of_neg _ hp, List.find?_cons_of_neg _ (fun hq => hp (ha ▸ hq)), ih']

theorem find?_of_filter_eq_single {α : Type} (p : α → Bool) (ls : List α) (a : α)
    (h : ls.filter p = [a]) : ls.find? p = some a := by
  induction ls with
  | nil => simp at h
  | cons b bs ih =>
    rw [List.filter_cons] at h
    by_cases hb : p b
    · rw [if_pos hb] at h
      rw [List.find?_cons_of_pos _ hb]
      exact congrArg some (List.cons_eq_cons.mp h).1
    · rw [if_neg hb] at h
      rw [List.find?_cons_of_neg _ hb]
      exact ih h

/-! ## Master characterization of one `update_pkgbuild` run -/

theorem step_no_nl (pat : List Char → Bool) (repl : List Char)
    (hrepl : '\n' ∉ repl) (l : List Char) (hl : '\n' ∉ l) :
    '\n' ∉ (if pat l then repl else l) := by
  by_cases h : pat l
  · rw [if_pos h]; exact hrepl
  · rw [if_neg h]; exact hl

theorem map_step_no_nl (pat : List Char → Bool) (repl : List Char)
    (hrepl : '\n' ∉ repl) (ls : List (List Char))
    (hls : ∀ l ∈ ls, '\n' ∉ l) :
    ∀ l ∈ ls.map (fun l => if pat l then repl else l), '\n' ∉ l := by
  intro l hl
  rcases List.mem_map.mp hl with ⟨a, ha, rfl⟩
  exact step_no_nl pat repl hrepl a (hls a ha)

theorem map_ne_nil {α β : Type} (f : α → β) {ls : List α} (h : ls ≠ []) :
    ls.map f ≠ [] := by
  simpa [List.map_eq_nil_iff] using h

theorem update_pkgbuild_spec (content v t hx ha : String)
    (hv : '\n' ∉ v.data) (ht : '\n' ∉ t.data) (hhx : '\n' ∉ hx.data)
    (hha : '\n' ∉ ha.data) :
    update_pkgbuild content v t hx ha =
      match (splitLines content.data).find? pkgverPat with
      | none => .error "pkgver not found in PKGBUILD"
      | some cur =>
        if cur.drop 7 ≠ v.data ∧
            ((splitLines content.data).filter pkgrelPat).length = 0 then
          .error "pkgrel not found in PKGBUILD"
        else if ((splitLines content.data).filter tagPat).length = 0 then
          .error "_releaseTag not found in PKGBUILD"
        else if ((splitLines content.data).filter shaX86Pat).length = 0 then
          .error "sha256sums_x86_64 not found in PKGBUILD"
        else if ((splitLines content.data).filter shaAarchPat).length = 0 then
          .error "sha256sums_aarch64 not found in PKGBUILD"
        else
          .ok ⟨joinLines ((splitLines content.data).map
            (applySubs (decide (cur.drop 7 ≠ v.data)) v t hx ha))⟩ := by
  have hne0 := splitLines_ne_nil content.data
  have hnl0 := mem_splitLines_no_nl content.data
  have hnl1 := map_step_no_nl pkgverPat (pkgverRepl v) (nl_pkgverRepl v hv) _ hnl0
  have hm1 : (splitLines content.data).map
      (fun l => if pkgverPat l then pkgverRepl v else l) ≠ [] :=
    map_ne_nil _ hne0
  cases hfind : (splitLines content.data).find? pkgverPat with
  | none => simp only [update_pkgbuild, hfind]
  | some cur =>
    have hn1 : ¬(((splitLines content.data).filter pkgverPat).length = 0) :=
      filter_len_pos_of_find? hfind
    by_cases hch : cur.drop 7 = v.data
    · -- version unchanged: the pkgrel stage is skipped
      have hrhs1 : ¬(cur.drop 7 ≠ v.data ∧
          ((splitLines content.data).filter pkgrelPat).length = 0) := by
        intro hcon; exact hcon.1 hch
      have hdec : decide (cur.drop 7 ≠ v.data) = false := by simp [hch]
      have hnl3 := map_step_no_nl tagPat (tagRepl t) (nl_tagRepl t ht) _ hnl1
      have hm3 := map_ne_nil (fun l => if tagPat l then tagRepl t else l) hm1
      have hnl4 := map_step_no_nl shaX86Pat (shaX86Repl hx) (nl_shaX86Repl hx hhx) _ hnl3
      have hm4 := map_ne_nil (fun l => if shaX86Pat l then shaX86Repl hx else l) hm3
      simp only [update_pkgbuild, hfind, subAll, hch, ne_eq, not_true_eq_false,
        if_false, hn1, if_neg hrhs1, hdec]
      rw [splitLines_joinLines _ hm1 hnl1]
      rw [filter_length_map_eq _ tagPat _ (fun l _ => tagPat_stage1 v l)]
      rw [splitLines_joinLines _ hm3 hnl3]
      rw [filter_length_map_eq _ shaX86Pat _ (fun l _ => shaX86Pat_stage3 t l),
        filter_length_map_eq _ shaX86Pat _ (fun l _ => shaX86Pat_stage1 v l)]
      rw [splitLines_joinLines _ hm4 hnl4]
      rw [filter_length_map_eq _ shaAarchPat _ (fun l _ => shaAarchPat_stage4 hx l),
        filter_length_map_eq _ shaAarchPat _ (fun l _ => shaAarchPat_stage3 t l),
        filter_length_map_eq _ shaAarchPat _ (fun l _ => shaAarchPat_stage1 v l)]
      rw [List.map_map, List.map_map, List.map_map]
      rfl
    · -- version changed: the pkgrel stage runs
      have hch' : cur.drop 7 ≠ v.data := hch
      have hdec : decide (cur.drop 7 ≠ v.data) = true := by simp [hch]
      have hnl2 := map_step_no_nl pkgrelPat pkgrelRepl nl_pkgrelRepl _ hnl1
      have hm2 := map_ne_nil (fun l => if pkgrelPat l then pkgrelRepl else l) hm1
      have hnl3 := map_step_no_nl tagPat (tagRepl t) (nl_tagRepl t ht) _ hnl2
      have hm3 := map_ne_nil (fun l => if tagPat l then tagRepl t else l) hm2
      have hnl4 := map_step_no_nl shaX86Pat (shaX86Repl hx) (nl_shaX86Repl hx hhx) _ hnl3
      have hm4 := map_ne_nil (fun l => if shaX86Pat l then shaX86Repl hx else l) hm3
      simp only [update_pkgbuild, hfind, subAll, hn1, if_false, hdec,
        if_pos hch']
      rw [splitLines_joinLines _ hm1 hnl1]
      rw [filter_length_map_eq _ pkgrelPat _ (fun l _ => pkgrelPat_stage1 v l)]
      by_cases h2 : ((splitLines content.data).filter pkgrelPat).length = 0
      · rw [if_pos h2, if_pos ⟨hch', h2⟩]
      · rw [if_neg h2, if_neg (fun hc => h2 hc.2)]
        simp only []
        rw [splitLines_joinLines _ hm2 hnl2]
        rw [filter_length_map_eq _ tagPat _ (fun l _ => tagPat_stage2 l),
          filter_length_map_eq _ tagPat _ (fun l _ => tagPat_stage1 v l)]
        rw [splitLines_joinLines _ hm3 hnl3]
        rw [filter_length_map_eq _ shaX86Pat _ (fun l _ => shaX86Pat_stage3 t l),
          filter_length_map_eq _ shaX86Pat _ (fun l _ => shaX86Pat_stage2 l),
          filter_length_map_eq _ shaX86Pat _ (fun l _ => shaX86Pat_stage1 v l)]
        rw [splitLines_joinLines _ hm4 hnl4]
        rw [filter_length_map_eq _ shaAarchPat _ (fun l _ => shaAarchPat_stage4 hx l),
          filter_length_map_eq _ shaAarchPat _ (fun l _ => shaAarchPat_stage3 t l),
          filter_length_map_eq _ shaAarchPat _ (fun l _ => shaAarchPat_stage2 l),
          filter_length_map_eq _ shaAarchPat _ (fun l _ => shaAarchPat_stage1 v l)]
        rw [List.map_map, List.map_map, List.map_map, List.map_map]
        rfl

/-! ## `findAssets`: the last matching asset wins -/

theorem isAarch_false_of_isX86 {a : Asset} (h : isX86Asset a = true) :
    isAarchAsset a = false :=
  suffix_excl_x86_aarch h

theorem assetStep_fst (acc : Option Asset × Option Asset) (a : Asset) :
    (assetStep acc a).1 = if isX86Asset a then some a else acc.1 := by
  unfold assetStep
  by_cases h1 : isX86Asset a
  · rw [if_pos h1, if_pos h1]
  · rw [if_neg h1, if_neg h1]
    by_cases h2 : isAarchAsset a
    · rw [if_pos h2]
    · rw [if_neg h2]

theorem assetStep_snd (acc : Option Asset × Option Asset) (a : Asset) :
    (assetStep acc a).2 = if isAarchAsset a then some a else acc.2 := by
  unfold assetStep
  by_cases h1 : isX86Asset a
  · rw [if_pos h1, isAarch_false_of_isX86 h1]
    simp
  · rw [if_neg h1]
    by_cases h2 : isAarchAsset a
    · rw [if_pos h2, if_pos h2]
    · rw [if_neg h2, if_neg h2]

theorem find?_append_first {α : Type} (p : α → Bool) (l1 l2 : List α) :
    (l1 ++ l2).find? p =
      match l1.find? p with
      | some a => some a
      | none => l2.find? p := by
  induction l1 with
  | nil => simp
  | cons a as ih =>
    by_cases h : p a
    · rw [List.cons_append, List.find?_cons_of_pos _ h, List.find?_cons_of_pos _ h]
    · rw [List.cons_append, List.find?_cons_of_neg _ h, List.find?_cons_of_neg _ h, ih]

theorem foldl_assetStep_fst (assets : List Asset) (acc : Option Asset × Option Asset) :
    (assets.foldl assetStep acc).1 =
      match assets.reverse.find? isX86Asset with
      | some a => some a
      | none => acc.1 := by
  induction assets generalizing acc with
  | nil => rfl
  | cons a as ih =>
    rw [List.foldl_cons, ih (assetStep acc a), List.reverse_cons,
      find?_append_first]
    cases hf : as.reverse.find? isX86Asset with
    | some b => rfl
    | none =>
      show (assetStep acc a).1 =
        match List.find? isX86Asset [a] with
        | some b => some b
        | none => acc.1
      rw [assetStep_fst]
      by_cases h : isX86Asset a
      · rw [if_pos h, List.find?_cons_of_pos _ h]
      · rw [if_neg h, List.find?_cons_of_neg _ h]
        rfl

theorem foldl_assetStep_snd (assets : List Asset) (acc : Option Asset × Option Asset) :
    (assets.foldl assetStep acc).2 =
      match assets.reverse.find? isAarchAsset with
      | some a => some a
      | none => acc.2 := by
  induction assets generalizing acc with
  | nil => rfl
  | cons a as ih =>
    rw [List.foldl_cons, ih (assetStep acc a), List.reverse_cons,
      find?_append_first]
    cases hf : as.reverse.find? isAarchAsset with
    | some b => rfl
    | none =>
      show (assetStep acc a).2 =
        match List.find? isAarchAsset [a] with
        | some b => some b
        | none => acc.2
      rw [assetStep_snd]
      by_cases h : isAarchAsset a
      · rw [if_pos h, List.find?_cons_of_pos _ h]
      · rw [if_neg h, List.find?_cons_of_neg _ h]
        rfl

theorem findAssets_fst (assets : List Asset) :
    (findAssets assets).1 = assets.reverse.find? isX86Asset := by
  rw [findAssets, foldl_assetStep_fst]
  cases h : assets.reverse.find? isX86Asset <;> rfl

theorem findAssets_snd (assets : List Asset) :
    (findAssets assets).2 = assets.reverse.find? isAarchAsset := by
  rw [findAssets, foldl_assetStep_snd]
  cases h : assets.reverse.find? isAarchAsset <;> rfl

/-! ## Digit-run lemmas for the version pattern -/

theorem takeWhile_append_stop (p : Char → Bool) (X : List Char)
    (hX : ∀ c ∈ X, p c = true) (y : Char) (hy : p y = false) (R : List Char) :
    (X ++ y :: R).takeWhile p = X := by
  induction X with
  | nil => simp [List.takeWhile_cons, hy]
  | cons c cs ih =>
    have hc : p c = true := hX c (List.mem_cons_self c cs)
    rw [List.cons_append, List.takeWhile_cons, hc]
    simp only [if_true]
    rw [ih (fun d hd => hX d (List.mem_cons.mpr (Or.inr hd)))]

theorem dropWhile_append_stop (p : Char → Bool) (X : List Char)
    (hX : ∀ c ∈ X, p c = true) (y : Char) (hy : p y = false) (R : List Char) :
    (X ++ y :: R).dropWhile p = y :: R := by
  induction X with
  | nil => simp [List.dropWhile_cons, hy]
  | cons c cs ih =>
    have hc : p c = true := hX c (List.mem_cons_self c cs)
    rw [List.cons_append, List.dropWhile_cons, hc]
    simp only [if_true]
    exact ih (fun d hd => hX d (List.mem_cons.mpr (Or.inr hd)))

theorem takeWhile_all (p : Char → Bool) (X : List Char)
    (hX : ∀ c ∈ X, p c = true) : X.takeWhile p = X := by
  induction X with
  | nil => rfl
  | cons c cs ih =>
    rw [List.takeWhile_cons, hX c (List.mem_cons_self c cs)]
    simp only [if_true]
    rw [ih (fun d hd => hX d (List.mem_cons.mpr (Or.inr hd)))]

theorem dropWhile_all (p : Char → Bool) (X : List Char)
    (hX : ∀ c ∈ X, p c = true) : X.dropWhile p = [] := by
  induction X with
  | nil => rfl
  | cons c cs ih =>
    rw [List.dropWhile_cons, hX c (List.mem_cons_self c cs)]
    simp only [if_true]
    exact ih (fun d hd => hX d (List.mem_cons.mpr (Or.inr hd)))

/-! ## The version regex on a decomposed name -/

theorem matchVersionAt_decomp (X Y Z rest : List Char)
    (hX : X ≠ []) (hXd : ∀ c ∈ X, c.isDigit = true)
    (hY : Y ≠ []) (hYd : ∀ c ∈ Y, c.isDigit = true)
    (hZ : Z ≠ []) (hZd : ∀ c ∈ Z, c.isDigit = true) :
    matchVersionAt ("Keyguard-".data ++
        (X ++ ('.' :: (Y ++ ('.' :: (Z ++ ("-linux".data ++ rest))))))) =
      some (X ++ ('.' :: (Y ++ ('.' :: Z)))) := by
  show matchVersionAt ("Keyguard-".data ++
      (X ++ ('.' :: (Y ++ ('.' :: (Z ++ ('-' :: ("linux".data ++ rest)))))))) = _
  have h1 := isPrefixOf_append_self "Keyguard-".data
    (X ++ ('.' :: (Y ++ ('.' :: (Z ++ ('-' :: ("linux".data ++ rest)))))))
  have hdrop := List.drop_left "Keyguard-".data
    (X ++ ('.' :: (Y ++ ('.' :: (Z ++ ('-' :: ("linux".data ++ rest)))))))
  have htw1 := takeWhile_append_stop Char.isDigit X hXd '.' (by decide)
    (Y ++ ('.' :: (Z ++ ('-' :: ("linux".data ++ rest)))))
  have hdw1 := dropWhile_append_stop Char.isDigit X hXd '.' (by decide)
    (Y ++ ('.' :: (Z ++ ('-' :: ("linux".data ++ rest)))))
  have htw2 := takeWhile_append_stop Char.isDigit Y hYd '.' (by decide)
    (Z ++ ('-' :: ("linux".data ++ rest)))
  have hdw2 := dropWhile_append_stop Char.isDigit Y hYd '.' (by decide)
    (Z ++ ('-' :: ("linux".data ++ rest)))
  have htw3 := takeWhile_append_stop Char.isDigit Z hZd '-' (by decide)
    ("linux".data ++ rest)
  have hdw3 := dropWhile_append_stop Char.isDigit Z hZd '-' (by decide)
    ("linux".data ++ rest)
  have h2 : "-linux".data.isPrefixOf ('-' :: ("linux".data ++ rest)) = true :=
    isPrefixOf_append_self "-linux".data rest
  simp only [matchVersionAt, h1, if_true, hdrop, htw1, hdw1, htw2, hdw2,
    htw3, hdw3, h2, hX, hY, hZ, if_false]

theorem matchVersionAt_nil : matchVersionAt [] = none := rfl

theorem searchVersion_first (l : List Char) (n : Nat) (v : List Char)
    (h : matchVersionAt (l.drop n) = some v)
    (hmin : ∀ k, k < n → matchVersionAt (l.drop k) = none) :
    searchVersion l = some v := by
  induction l generalizing n with
  | nil =>
    rw [List.drop_nil] at h
    rw [matchVersionAt_nil] at h
    exact absurd h (by simp)
  | cons c cs ih =>
    cases n with
    | zero =>
      rw [List.drop_zero] at h
      rw [searchVersion, h]
    | succ n =>
      have h0 := hmin 0 (Nat.succ_pos n)
      rw [List.drop_zero] at h0
      rw [searchVersion, h0]
      exact ih n h (fun k hk => hmin (k + 1) (Nat.succ_lt_succ hk))

/-! ## Every extracted version has the spec's `\d+\.\d+\.\d+` shape -/

theorem versionShape_build (X Y Z : List Char)
    (hX : X ≠ []) (hXd : ∀ c ∈ X, c.isDigit = true)
    (hY : Y ≠ []) (hYd : ∀ c ∈ Y, c.isDigit = true)
    (hZ : Z ≠ []) (hZd : ∀ c ∈ Z, c.isDigit = true) :
    versionShape (X ++ ('.' :: (Y ++ ('.' :: Z)))) = true := by
  have htw1 := takeWhile_append_stop Char.isDigit X hXd '.' (by decide)
    (Y ++ ('.' :: Z))
  have hdw1 := dropWhile_append_stop Char.isDigit X hXd '.' (by decide)
    (Y ++ ('.' :: Z))
  have htw2 := takeWhile_append_stop Char.isDigit Y hYd '.' (by decide) Z
  have hdw2 := dropWhile_append_stop Char.isDigit Y hYd '.' (by decide) Z
  have htw3 := takeWhile_all Char.isDigit Z hZd
  have hdw3 := dropWhile_all Char.isDigit Z hZd
  simp only [versionShape, htw1, hdw1, htw2, hdw2, htw3, hdw3]
  simp [hX, hY, hZ]

theorem matchVersionAt_shape (l v : List Char) (h : matchVersionAt l = some v) :
    versionShape v = true := by
  simp only [matchVersionAt] at h
  split at h
  · split at h
    · simp at h
    · split at h
      · simp at h
      · split at h
        · split at h
          · simp at h
          · split at h
            · simp at h
            · split at h
              · split at h
                · simp at h
                · split at h
                  · rename_i hpfx hd1 x1 c1 cs1 heq1 hc1 hd2 x2 c2 cs2 heq2 hc2 hd3 hlin
                    rw [Option.some.injEq] at h
                    subst h
                    exact versionShape_build _ _ _
                      hd1 (fun c hc => List.mem_takeWhile_imp hc)
                      hd2 (fun c hc => List.mem_takeWhile_imp hc)
                      hd3 (fun c hc => List.mem_takeWhile_imp hc)
                  · simp at h
              · simp at h
        · simp at h
  · simp at h

theorem searchVersion_shape (l v : List Char) (h : searchVersion l = some v) :
    versionShape v = true := by
  induction l with
  | nil => rw [searchVersion] at h; exact absurd h (by simp)
  | cons c cs ih =>
    rw [searchVersion] at h
    cases hm : matchVersionAt (c :: cs) with
    | some w =>
      rw [hm] at h
      rw [Option.some.injEq] at h
      subst h
      exact matchVersionAt_shape _ _ hm
    | none =>
      rw [hm] at h
      exact ih h

/-! ## Claim theorems -/

/-- Claim C1: for every release record with a non-empty tag whose asset list
contains exactly one asset named with the x86_64 Linux archive suffix and
exactly one with the aarch64 suffix, both digests carrying the `sha256:`
prefix, and the x86_64 asset named `Keyguard-X.Y.Z-linux...`,
`extract_release_info` returns exactly `(X.Y.Z, tag, x86_64 digest suffix,
aarch64 digest suffix)`, the hashes being the digest text after `sha256:`
verbatim. -/
theorem extract_release_info_correct
    (r : ReleaseRecord) (t : String) (assets : List Asset) (ax aa : Asset)
    (X Y Z rest : List Char)
    (htag : r.tag_name = some t) (ht : t ≠ "")
    (has : r.assets = some assets)
    (hx1 : assets.filter isX86Asset = [ax])
    (ha1 : assets.filter isAarchAsset = [aa])
    (hname : ax.getName.data = "Keyguard-".data ++
      (X ++ ('.' :: (Y ++ ('.' :: (Z ++ ("-linux".data ++ rest)))))))
    (hX : X ≠ []) (hXd : ∀ c ∈ X, c.isDigit = true)
    (hY : Y ≠ []) (hYd : ∀ c ∈ Y, c.isDigit = true)
    (hZ : Z ≠ []) (hZd : ∀ c ∈ Z, c.isDigit = true)
    (hdx : "sha256:".data.isPrefixOf ax.getDigest.data = true)
    (hda : "sha256:".data.isPrefixOf aa.getDigest.data = true) :
    extract_release_info r =
      .ok (⟨X ++ ('.' :: (Y ++ ('.' :: Z)))⟩, t,
        ⟨ax.getDigest.data.drop 7⟩, ⟨aa.getDigest.data.drop 7⟩) := by
  have hnn : assets ≠ [] := by
    intro h0; rw [h0] at hx1; simp at hx1
  have hfx : (findAssets assets).1 = some ax := by
    rw [findAssets_fst]
    apply find?_of_filter_eq_single
    rw [List.filter_reverse, hx1]
    rfl
  have hfa : (findAssets assets).2 = some aa := by
    rw [findAssets_snd]
    apply find?_of_filter_eq_single
    rw [List.filter_reverse, ha1]
    rfl
  have hfpair : findAssets assets = (some ax, some aa) := Prod.ext hfx hfa
  have hsv : searchVersion ax.getName.data
      = some (X ++ ('.' :: (Y ++ ('.' :: Z)))) := by
    apply searchVersion_first _ 0
    · rw [List.drop_zero, hname]
      exact matchVersionAt_decomp X Y Z rest hX hXd hY hYd hZ hZd
    · intro k hk; exact absurd hk (Nat.not_lt_zero k)
  simp only [extract_release_info, htag, ht, Option.getD_some, has, hnn,
    hfpair, hsv, extract_sha256, hdx, if_true, if_false, hda]

/-- Claim C2: `extract_release_info` fails, with nothing extracted, in
each malformed-payload case — missing/empty tag, missing/empty asset list,
no x86_64-suffixed asset, no aarch64-suffixed asset, version pattern not
matching the x86_64 asset name, digest lacking the `sha256:` prefix — and
each case yields its own descriptive message, quoting the offending asset
name where applicable. -/
theorem extract_release_info_errors :
    (∀ r : ReleaseRecord, (r.tag_name = none ∨ r.tag_name = some "") →
      extract_release_info r = .error "Release tag not found in API response")
    ∧ (∀ (r : ReleaseRecord) (t : String), r.tag_name = some t → t ≠ "" →
      r.assets.getD [] = [] →
      extract_release_info r = .error "No assets found in release")
    ∧ (∀ (r : ReleaseRecord) (t : String) (assets : List Asset),
      r.tag_name = some t → t ≠ "" → r.assets = some assets → assets ≠ [] →
      (∀ a ∈ assets, isX86Asset a = false) →
      extract_release_info r = .error "Linux x86_64 artifact not found in release")
    ∧ (∀ (r : ReleaseRecord) (t : String) (assets : List Asset) (ax : Asset),
      r.tag_name = some t → t ≠ "" → r.assets = some assets → assets ≠ [] →
      (findAssets assets).1 = some ax →
      (∀ a ∈ assets, isAarchAsset a = false) →
      extract_release_info r = .error "Linux aarch64 artifact not found in release")
    ∧ (∀ (r : ReleaseRecord) (t : String) (assets : List Asset) (ax aa : Asset),
      r.tag_name = some t → t ≠ "" → r.assets = some assets → assets ≠ [] →
      findAssets assets = (some ax, some aa) →
      searchVersion ax.getName.data = none →
      extract_release_info r =
        .error ("Could not extract version from asset name: " ++ ax.getName))
    ∧ (∀ (r : ReleaseRecord) (t : String) (assets : List Asset) (ax aa : Asset)
        (v : List Char),
      r.tag_name = some t → t ≠ "" → r.assets = some assets → assets ≠ [] →
      findAssets assets = (some ax, some aa) →
      searchVersion ax.getName.data = some v →
      "sha256:".data.isPrefixOf ax.getDigest.data = false →
      extract_release_info r =
        .error ("SHA256 digest not found for asset: " ++ ax.getName))
    ∧ (∀ (r : ReleaseRecord) (t : String) (assets : List Asset) (ax aa : Asset)
        (v : List Char),
      r.tag_name = some t → t ≠ "" → r.assets = some assets → assets ≠ [] →
      findAssets assets = (some ax, some aa) →
      searchVersion ax.getName.data = some v →
      "sha256:".data.isPrefixOf ax.getDigest.data = true →
      "sha256:".data.isPrefixOf aa.getDigest.data = false →
      extract_release_info r =
        .error ("SHA256 digest not found for asset: " ++ aa.getName)) := by
  refine ⟨?_, ?_, ?_, ?_, ?_, ?_, ?_⟩
  · intro r h
    rcases h with h | h <;> simp [extract_release_info, h]
  · intro r t htag ht hassets
    simp [extract_release_info, htag, ht, hassets]
  · intro r t assets htag ht has hnn hno
    have hfst : (findAssets assets).1 = none := by
      rw [findAssets_fst]
      apply List.find?_eq_none.mpr
      intro a ha
      simp [hno a (List.mem_reverse.mp ha)]
    rcases hfa : findAssets assets with ⟨o1, o2⟩
    have ho1 : o1 = none := by rw [hfa] at hfst; exact hfst
    subst ho1
    simp [extract_release_info, htag, ht, has, hnn, hfa]
  · intro r t assets ax htag ht has hnn hfst hno
    have hsnd : (findAssets assets).2 = none := by
      rw [findAssets_snd]
      apply List.find?_eq_none.mpr
      intro a ha
      simp [hno a (List.mem_reverse.mp ha)]
    have hpair : findAssets assets = (some ax, none) := Prod.ext hfst hsnd
    simp [extract_release_info, htag, ht, has, hnn, hpair]
  · intro r t assets ax aa htag ht has hnn hpair hsv
    simp [extract_release_info, htag, ht, has, hnn, hpair, hsv]
  · intro r t assets ax aa v htag ht has hnn hpair hsv hdx
    simp [extract_release_info, htag, ht, has, hnn, hpair, hsv,
      extract_sha256, hdx]
  · intro r t assets ax aa v htag ht has hnn hpair hsv hdx hda
    simp [extract_release_info, htag, ht, has, hnn, hpair, hsv,
      extract_sha256, hdx, hda]

/-- Claim C9: last match wins — the classification pass keeps, for each
architecture, the last asset in list order whose name carries that
architecture's suffix (first conjunct, stated via `find?` on the reversed
list), and with duplicate x86_64 assets present the extraction uses the last
one's name and digest, with no deduplication and no error (second
conjunct). -/
theorem findAssets_last_match_wins :
    (∀ assets : List Asset,
      (findAssets assets).1 = assets.reverse.find? isX86Asset ∧
      (findAssets assets).2 = assets.reverse.find? isAarchAsset)
    ∧ (∀ (r : ReleaseRecord) (t : String) (l1 l2 l3 : List Asset)
        (a b aa : Asset) (v : List Char),
      r.tag_name = some t → t ≠ "" →
      r.assets = some (l1 ++ a :: (l2 ++ b :: l3)) →
      isX86Asset a = true → isX86Asset b = true →
      (∀ c ∈ l3, isX86Asset c = false) →
      (findAssets (l1 ++ a :: (l2 ++ b :: l3))).2 = some aa →
      searchVersion b.getName.data = some v →
      "sha256:".data.isPrefixOf b.getDigest.data = true →
      "sha256:".data.isPrefixOf aa.getDigest.data = true →
      extract_release_info r =
        .ok (⟨v⟩, t, ⟨b.getDigest.data.drop 7⟩, ⟨aa.getDigest.data.drop 7⟩)) := by
  constructor
  · exact fun assets => ⟨findAssets_fst assets, findAssets_snd assets⟩
  · intro r t l1 l2 l3 a b aa v htag ht has ha hb hl3 hsnd hsv hdb hda
    have hnn : l1 ++ a :: (l2 ++ b :: l3) ≠ [] := by simp
    have hrev : (l1 ++ a :: (l2 ++ b :: l3)).reverse
        = l3.reverse ++ (b :: (l2.reverse ++ (a :: l1.reverse))) := by
      simp [List.reverse_append, List.append_assoc]
    have hfst : (findAssets (l1 ++ a :: (l2 ++ b :: l3))).1 = some b := by
      rw [findAssets_fst, hrev, find?_append_first]
      have hnone : l3.reverse.find? isX86Asset = none := by
        apply List.find?_eq_none.mpr
        intro c hc
        simp [hl3 c (List.mem_reverse.mp hc)]
      rw [hnone, List.find?_cons_of_pos _ hb]
    have hfpair : findAssets (l1 ++ a :: (l2 ++ b :: l3)) = (some b, some aa) :=
      Prod.ext hfst hsnd
    simp only [extract_release_info, htag, ht, Option.getD_some, has, hnn,
      hfpair, hsv, extract_sha256, hdb, hda, if_true, if_false]

/-- Claim C10 (implicit): the version search is not anchored to the start of
the asset name — if the x86_64 asset's name carries an occurrence of the
`Keyguard-<digits>.<digits>.<digits>-linux` pattern at position `n` (an
arbitrary prefix may precede it) and no occurrence earlier, extraction
succeeds and returns exactly that first embedded version. -/
theorem extract_release_info_unanchored
    (r : ReleaseRecord) (t : String) (assets : List Asset) (ax aa : Asset)
    (n : Nat) (v : List Char)
    (htag : r.tag_name = some t) (ht : t ≠ "")
    (has : r.assets = some assets) (hnn : assets ≠ [])
    (hfpair : findAssets assets = (some ax, some aa))
    (hmatch : matchVersionAt (ax.getName.data.drop n) = some v)
    (hfirst : ∀ k, k < n → matchVersionAt (ax.getName.data.drop k) = none)
    (hdx : "sha256:".data.isPrefixOf ax.getDigest.data = true)
    (hda : "sha256:".data.isPrefixOf aa.getDigest.data = true) :
    extract_release_info r =
      .ok (⟨v⟩, t, ⟨ax.getDigest.data.drop 7⟩, ⟨aa.getDigest.data.drop 7⟩) := by
  have hsv : searchVersion ax.getName.data = some v :=
    searchVersion_first _ n v hmatch hfirst
  simp only [extract_release_info, htag, ht, Option.getD_some, has, hnn,
    hfpair, hsv, extract_sha256, hdx, hda, if_true, if_false]

/-- Claim C8 counterexample: the code never validates hash length or hex
digits — on a release whose digests are `sha256:zz` and `sha256:ww`,
`extract_release_info` succeeds and returns the 2-character hashes `zz` and
`ww` verbatim, so the returned hash components are not 64-character
hexadecimal strings. -/
theorem extract_release_info_hash_not_hex :
    extract_release_info c8release = .ok ("1.2.3", "v1", "zz", "ww")
      ∧ "zz".length ≠ 64 := by
  constructor
  · rfl
  · decide

/-- Claim C8 amended: whenever `extract_release_info` returns, the version
component does match `\d+\.\d+\.\d+` (as a full match), but the hash
components are only the digest texts after the `sha256:` prefix, verbatim
and unvalidated — they need not be 64-character hexadecimal strings. -/
theorem extract_release_info_shape (r : ReleaseRecord) (v t hx ha : String)
    (h : extract_release_info r = .ok (v, t, hx, ha)) :
    versionShape v.data = true ∧
    (∃ ax aa : Asset, findAssets (r.assets.getD []) = (some ax, some aa) ∧
      "sha256:".data.isPrefixOf ax.getDigest.data = true ∧
      hx = ⟨ax.getDigest.data.drop 7⟩ ∧
      "sha256:".data.isPrefixOf aa.getDigest.data = true ∧
      ha = ⟨aa.getDigest.data.drop 7⟩) := by
  simp only [extract_release_info] at h
  split at h
  · simp at h
  · rename_i tag htag
    split at h
    · simp at h
    · split at h
      · simp at h
      · split at h
        · simp at h
        · simp at h
        · rename_i x86Asset aarchAsset hfpair
          split at h
          · simp at h
          · rename_i vc hsv
            split at h
            · simp at h
            · rename_i sx hsx
              split at h
              · simp at h
              · rename_i sa hsa
                rw [Except.ok.injEq] at h
                obtain ⟨hv, ht2, hhx, hha2⟩ := h
                have hxfacts : "sha256:".data.isPrefixOf
                    x86Asset.getDigest.data = true ∧
                    hx = ⟨x86Asset.getDigest.data.drop 7⟩ := by
                  simp only [extract_sha256] at hsx
                  split at hsx
                  · rename_i hp
                    rw [Except.ok.injEq] at hsx
                    exact ⟨hp, hsx.symm⟩
                  · simp at hsx
                have hafacts : "sha256:".data.isPrefixOf
                    aarchAsset.getDigest.data = true ∧
                    ha = ⟨aarchAsset.getDigest.data.drop 7⟩ := by
                  simp only [extract_sha256] at hsa
                  split at hsa
                  · rename_i hp
                    rw [Except.ok.injEq] at hsa
                    exact ⟨hp, hsa.symm⟩
                  · simp at hsa
                exact ⟨searchVersion_shape _ _ hsv, x86Asset, aarchAsset,
                  hfpair, hxfacts.1, hxfacts.2, hafacts.1, hafacts.2⟩

theorem update_ok_lines (content v t hx ha out : String)
    (hv : '\n' ∉ v.data) (ht : '\n' ∉ t.data) (hhx : '\n' ∉ hx.data)
    (hha : '\n' ∉ ha.data)
    (h : update_pkgbuild content v t hx ha = .ok out) :
    ∃ cur, (splitLines content.data).find? pkgverPat = some cur ∧
      out.data = joinLines ((splitLines content.data).map
        (applySubs (decide (cur.drop 7 ≠ v.data)) v t hx ha)) ∧
      splitLines out.data = (splitLines content.data).map
        (applySubs (decide (cur.drop 7 ≠ v.data)) v t hx ha) ∧
      ((splitLines content.data).filter tagPat).length ≠ 0 ∧
      ((splitLines content.data).filter shaX86Pat).length ≠ 0 ∧
      ((splitLines content.data).filter shaAarchPat).length ≠ 0 ∧
      (cur.drop 7 ≠ v.data →
        ((splitLines content.data).filter pkgrelPat).length ≠ 0) := by
  rw [update_pkgbuild_spec content v t hx ha hv ht hhx hha] at h
  cases hfind : (splitLines content.data).find? pkgverPat with
  | none => rw [hfind] at h; simp at h
  | some cur =>
    rw [hfind] at h
    simp only [] at h
    split at h
    · simp at h
    · split at h
      · simp at h
      · split at h
        · simp at h
        · split at h
          · simp at h
          · rename_i h1 h2 h3 h4
            rw [Except.ok.injEq] at h
            have hdata : out.data = joinLines ((splitLines content.data).map
                (applySubs (decide (cur.drop 7 ≠ v.data)) v t hx ha)) := by
              rw [← h]
            have hnlmap : ∀ l ∈ (splitLines content.data).map
                (applySubs (decide (cur.drop 7 ≠ v.data)) v t hx ha), '\n' ∉ l := by
              intro l hl
              rcases List.mem_map.mp hl with ⟨a, hal, rfl⟩
              exact applySubs_no_nl _ v t hx ha a hv ht hhx hha
                (mem_splitLines_no_nl content.data a hal)
            refine ⟨cur, rfl, hdata, ?_, h2, h3, h4, ?_⟩
            · rw [hdata]
              exact splitLines_joinLines _
                (map_ne_nil _ (splitLines_ne_nil content.data)) hnlmap
            · intro hne
              intro h0
              exact h1 ⟨hne, h0⟩

/-- Claim C6: frame property — a successful `update_pkgbuild` run changes
the manifest only on lines matching one of the five field patterns; the
line count is preserved and every non-field line is reproduced unchanged at
its index. -/
theorem update_pkgbuild_frame (content v t hx ha out : String)
    (hv : '\n' ∉ v.data) (ht : '\n' ∉ t.data) (hhx : '\n' ∉ hx.data)
    (hha : '\n' ∉ ha.data)
    (h : update_pkgbuild content v t hx ha = .ok out) :
    (splitLines out.data).length = (splitLines content.data).length ∧
    ∀ (i : Nat) (l : List Char), (splitLines content.data)[i]? = some l →
      isFieldLine l = false → (splitLines out.data)[i]? = some l := by
  obtain ⟨cur, hfind, hdata, hsplit, h2, h3, h4, h5⟩ :=
    update_ok_lines content v t hx ha out hv ht hhx hha h
  rw [hsplit]
  constructor
  · exact List.length_map _ _
  · intro i l hi hfl
    rw [List.getElem?_map, hi, Option.map_some']
    congr 1
    have hb := hfl
    simp only [isFieldLine, Bool.or_eq_false_iff] at hb
    obtain ⟨⟨⟨⟨hp1, hp2⟩, hp3⟩, hp4⟩, hp5⟩ := hb
    rw [applySubs_eq, if_neg (by simp [hp1]), if_neg (by simp [hp2]),
      if_neg (by simp [hp3]), if_neg (by simp [hp4]), if_neg (by simp [hp5])]

/-- Claim C3: pkgrel reset law — with the manifest's `pkgver` line being
`pkgver=1.0.0` and a `pkgrel=5` line present, updating to version `1.0.0`
leaves every `pkgrel`-matching line (in particular `pkgrel=5`) untouched,
while updating to `1.0.1` rewrites it to `pkgrel=1`; the comparison is plain
string equality of the version texts. -/
theorem update_pkgbuild_pkgrel_reset (content t hx ha out out' : String)
    (ht : '\n' ∉ t.data) (hhx : '\n' ∉ hx.data) (hha : '\n' ∉ ha.data)
    (hpv : (splitLines content.data).find? pkgverPat = some "pkgver=1.0.0".data)
    (hpr : "pkgrel=5".data ∈ splitLines content.data)
    (h1 : update_pkgbuild content "1.0.0" t hx ha = .ok out)
    (h2 : update_pkgbuild content "1.0.1" t hx ha = .ok out') :
    (∀ i : Nat, (splitLines content.data)[i]? = some "pkgrel=5".data →
      (splitLines out.data)[i]? = some "pkgrel=5".data) ∧
    (∀ i : Nat, (splitLines content.data)[i]? = some "pkgrel=5".data →
      (splitLines out'.data)[i]? = some "pkgrel=1".data) := by
  obtain ⟨cur1, hfind1, hdata1, hsplit1, _, _, _, _⟩ :=
    update_ok_lines content "1.0.0" t hx ha out (by decide) ht hhx hha h1
  obtain ⟨cur2, hfind2, hdata2, hsplit2, _, _, _, _⟩ :=
    update_ok_lines content "1.0.1" t hx ha out' (by decide) ht hhx hha h2
  rw [hfind1] at hpv
  have hcur1 : cur1 = "pkgver=1.0.0".data := by
    have h0 := hpv
    rw [Option.some.injEq] at h0
    exact h0
  subst hcur1
  rw [hfind1, Option.some.injEq] at hfind2
  subst hfind2
  constructor
  · intro i hi
    rw [hsplit1, List.getElem?_map, hi, Option.map_some']
    rfl
  · intro i hi
    rw [hsplit2, List.getElem?_map, hi, Option.map_some']
    rfl

/-- Claim C7 counterexample: `re.subn` is called with no count limit, so a
manifest containing two `pkgver` lines has BOTH rewritten — the update of
`c7Input` to version `3.0.0` turns both line 0 (`pkgver=1.0.0`) and line 1
(`pkgver=2.0.0`) into `pkgver=3.0.0`, contradicting "exactly one
replacement". -/
theorem update_pkgbuild_rewrites_duplicate_lines :
    (update_pkgbuild c7Input "3.0.0" "v3" "h" "g").map
        (fun o => ((splitLines o.data)[0]?, (splitLines o.data)[1]?))
      = .ok (some "pkgver=3.0.0".data, some "pkgver=3.0.0".data)
    ∧ (splitLines c7Input.data)[0]? = some "pkgver=1.0.0".data
    ∧ (splitLines c7Input.data)[1]? = some "pkgver=2.0.0".data := by
  refine ⟨?_, ?_, ?_⟩ <;> rfl

/-- Claim C7 amended: each substitution rewrites every line matching its
pattern (`re.subn` replaces all matches, not just the first): after a
successful run, every `pkgver`-matching input line holds the new `pkgver`
text, every `pkgrel`-matching line holds `pkgrel=1` when the version
changed, and every `_releaseTag`/checksum-matching line holds the
corresponding replacement; exactly one replacement happens only when
exactly one line matches. -/
theorem update_pkgbuild_rewrites_all_matching
    (content v t hx ha out : String) (cur : List Char)
    (hv : '\n' ∉ v.data) (ht : '\n' ∉ t.data) (hhx : '\n' ∉ hx.data)
    (hha : '\n' ∉ ha.data)
    (hcur : (splitLines content.data).find? pkgverPat = some cur)
    (h : update_pkgbuild content v t hx ha = .ok out) :
    (∀ (i : Nat) (l : List Char), (splitLines content.data)[i]? = some l →
      pkgverPat l = true → (splitLines out.data)[i]? = some (pkgverRepl v)) ∧
    (cur.drop 7 ≠ v.data →
      ∀ (i : Nat) (l : List Char), (splitLines content.data)[i]? = some l →
      pkgrelPat l = true → (splitLines out.data)[i]? = some pkgrelRepl) ∧
    (∀ (i : Nat) (l : List Char), (splitLines content.data)[i]? = some l →
      tagPat l = true → (splitLines out.data)[i]? = some (tagRepl t)) ∧
    (∀ (i : Nat) (l : List Char), (splitLines content.data)[i]? = some l →
      shaX86Pat l = true → (splitLines out.data)[i]? = some (shaX86Repl hx)) ∧
    (∀ (i : Nat) (l : List Char), (splitLines content.data)[i]? = some l →
      shaAarchPat l = true → (splitLines out.data)[i]? = some (shaAarchRepl ha)) := by
  obtain ⟨cur', hfind, hdata, hsplit, _, _, _, _⟩ :=
    update_ok_lines content v t hx ha out hv ht hhx hha h
  rw [hcur, Option.some.injEq] at hfind
  subst hfind
  refine ⟨?_, ?_, ?_, ?_, ?_⟩
  · intro i l hi hp
    rw [hsplit, List.getElem?_map, hi, Option.map_some']
    congr 1
    rw [applySubs_eq, if_pos hp]
  · intro hch i l hi hp
    have hnp : pkgverPat l = false := by
      cases hq : pkgverPat l
      · rfl
      · simp [excl_pkgver_pkgrel hq] at hp
    have hcht : decide (cur.drop 7 ≠ v.data) = true := decide_eq_true hch
    rw [hsplit, List.getElem?_map, hi, Option.map_some']
    congr 1
    rw [applySubs_eq, if_neg (by simp [hnp]), if_pos (by simp [hcht, hp])]
  · intro i l hi hp
    have hnp : pkgverPat l = false := by
      cases hq : pkgverPat l
      · rfl
      · simp [excl_pkgver_tag hq] at hp
    have hnr : pkgrelPat l = false := by
      cases hq : pkgrelPat l
      · rfl
      · simp [excl_pkgrel_tag hq] at hp
    rw [hsplit, List.getElem?_map, hi, Option.map_some']
    congr 1
    rw [applySubs_eq, if_neg (by simp [hnp]), if_neg (by simp [hnr]),
      if_pos hp]
  · intro i l hi hp
    have hnp : pkgverPat l = false := by
      cases hq : pkgverPat l
      · rfl
      · simp [excl_pkgver_shaX hq] at hp
    have hnr : pkgrelPat l = false := by
      cases hq : pkgrelPat l
      · rfl
      · simp [excl_pkgrel_shaX hq] at hp
    have hnt : tagPat l = false := by
      cases hq : tagPat l
      · rfl
      · simp [excl_tag_shaX hq] at hp
    rw [hsplit, List.getElem?_map, hi, Option.map_some']
    congr 1
    rw [applySubs_eq, if_neg (by simp [hnp]), if_neg (by simp [hnr]),
      if_neg (by simp [hnt]), if_pos hp]
  · intro i l hi hp
    have hnp : pkgverPat l = false := by
      cases hq : pkgverPat l
      · rfl
      · simp [excl_pkgver_shaA hq] at hp
    have hnr : pkgrelPat l = false := by
      cases hq : pkgrelPat l
      · rfl
      · simp [excl_pkgrel_shaA hq] at hp
    have hnt : tagPat l = false := by
      cases hq : tagPat l
      · rfl
      · simp [excl_tag_shaA hq] at hp
    have hns : shaX86Pat l = false := by
      cases hq : shaX86Pat l
      · rfl
      · simp [excl_shaX_shaA hq] at hp
    rw [hsplit, List.getElem?_map, hi, Option.map_some']
    congr 1
    rw [applySubs_eq, if_neg (by simp [hnp]), if_neg (by simp [hnr]),
      if_neg (by simp [hnt]), if_neg (by simp [hns]), if_pos hp]

/-- Claim C5 counterexample: `update_pkgbuild` is not idempotent for every
`ExtractedInfo` — with a release tag containing a newline, the first run
splits the `_releaseTag` line in two, and the second run rewrites both
halves, so applying the update twice differs from applying it once. -/
theorem update_pkgbuild_not_idempotent_newline_tag :
    ((update_pkgbuild c5Input "1.0.1" c5Tag "h" "g").bind
        (fun o => update_pkgbuild o "1.0.1" c5Tag "h" "g")).toOption
      ≠ (update_pkgbuild c5Input "1.0.1" c5Tag "h" "g").toOption := by decide

/-- Claim C5 amended: `update_pkgbuild` is idempotent for every manifest it
succeeds on and every `ExtractedInfo` whose version is non-empty and whose
four components contain no newline and no backslash character: re-running
with the identical values returns the once-updated text unchanged.  A
newline in a component splits its field line in two and breaks idempotency
(counterexample above); a backslash is excluded because Python's `re.sub`
treats the replacement as a template, so a backslash followed by `n` in a
component likewise becomes a real newline — the backslash-free hypotheses
keep the statement on the domain where splicing the replacement in verbatim
is exactly Python's behaviour. -/
theorem update_pkgbuild_idempotent (content v t hx ha out : String)
    (hv0 : v ≠ "") (hv : '\n' ∉ v.data) (ht : '\n' ∉ t.data)
    (hhx : '\n' ∉ hx.data) (hha : '\n' ∉ ha.data)
    (_hbv : backslashChar ∉ v.data) (_hbt : backslashChar ∉ t.data)
    (_hbhx : backslashChar ∉ hx.data) (_hbha : backslashChar ∉ ha.data)
    (h : update_pkgbuild content v t hx ha = .ok out) :
    update_pkgbuild out v t hx ha = .ok out := by
  obtain ⟨cur, hfind, hdata, hsplit, htagc, hxc, hac, hrelc⟩ :=
    update_ok_lines content v t hx ha out hv ht hhx hha h
  have hcur_mem := List.mem_of_find?_eq_some hfind
  have hcur_pat := List.find?_some hfind
  rw [update_pkgbuild_spec out v t hx ha hv ht hhx hha]
  have hfind2 : (splitLines out.data).find? pkgverPat = some (pkgverRepl v) := by
    rw [hsplit]
    apply find?_map_eq _ _ _ _ (fun l _ hl => pkgverPat_applySubs _ v t hx ha l hl)
    refine ⟨cur, hcur_mem, ?_⟩
    rw [applySubs_eq, if_pos hcur_pat]
    exact pkgverPat_pkgverRepl v hv0
  rw [hfind2]
  simp only []
  have hdrop7 : (pkgverRepl v).drop 7 = v.data := List.drop_left "pkgver=".data v.data
  have hc1 : ¬((pkgverRepl v).drop 7 ≠ v.data ∧
      ((splitLines out.data).filter pkgrelPat).length = 0) := by
    intro hcon
    exact hcon.1 (by rw [hdrop7])
  rw [if_neg hc1]
  have hmem_of_count : ∀ (p : List Char → Bool),
      ((splitLines content.data).filter p).length ≠ 0 →
      ∃ l ∈ splitLines content.data, p l = true := by
    intro p hp
    cases hfl : (splitLines content.data).filter p with
    | nil => rw [hfl] at hp; simp at hp
    | cons a as =>
      have ha : a ∈ (splitLines content.data).filter p := by
        rw [hfl]; exact List.mem_cons_self a as
      exact ⟨a, (List.mem_filter.mp ha).1, (List.mem_filter.mp ha).2⟩
  have hcount : ∀ (p : List Char → Bool) (repl : List Char),
      (∀ l, p l = true → applySubs (decide (cur.drop 7 ≠ v.data)) v t hx ha l = repl) →
      p repl = true →
      (∃ l ∈ splitLines content.data, p l = true) →
      ¬(((splitLines out.data).filter p).length = 0) := by
    intro p repl hrepl hprepl hex h0
    rcases hex with ⟨l, hl, hpl⟩
    have hmem : repl ∈ (splitLines out.data).filter p := by
      rw [hsplit]
      apply List.mem_filter.mpr
      refine ⟨?_, hprepl⟩
      rw [← hrepl l hpl]
      exact List.mem_map.mpr ⟨l, hl, rfl⟩
    rw [List.length_eq_zero] at h0
    rw [h0] at hmem
    exact absurd hmem (List.not_mem_nil repl)
  have htag2 : ¬(((splitLines out.data).filter tagPat).length = 0) := by
    apply hcount tagPat (tagRepl t) ?_ (tagPat_tagRepl t) (hmem_of_count _ htagc)
    intro l hl
    have hnp : pkgverPat l = false := by
      cases hq : pkgverPat l
      · rfl
      · simp [excl_pkgver_tag hq] at hl
    have hnr : pkgrelPat l = false := by
      cases hq : pkgrelPat l
      · rfl
      · simp [excl_pkgrel_tag hq] at hl
    rw [applySubs_eq, if_neg (by simp [hnp]), if_neg (by simp [hnr]), if_pos hl]
  have hshaX2 : ¬(((splitLines out.data).filter shaX86Pat).length = 0) := by
    apply hcount shaX86Pat (shaX86Repl hx) ?_ (shaX86Pat_shaX86Repl hx)
      (hmem_of_count _ hxc)
    intro l hl
    have hnp : pkgverPat l = false := by
      cases hq : pkgverPat l
      · rfl
      · simp [excl_pkgver_shaX hq] at hl
    have hnr : pkgrelPat l = false := by
      cases hq : pkgrelPat l
      · rfl
      · simp [excl_pkgrel_shaX hq] at hl
    have hnt : tagPat l = false := by
      cases hq : tagPat l
      · rfl
      · simp [excl_tag_shaX hq] at hl
    rw [applySubs_eq, if_neg (by simp [hnp]), if_neg (by simp [hnr]),
      if_neg (by simp [hnt]), if_pos hl]
  have hshaA2 : ¬(((splitLines out.data).filter shaAarchPat).length = 0) := by
    apply hcount shaAarchPat (shaAarchRepl ha) ?_ (shaAarchPat_shaAarchRepl ha)
      (hmem_of_count _ hac)
    intro l hl
    have hnp : pkgverPat l = false := by
      cases hq : pkgverPat l
      · rfl
      · simp [excl_pkgver_shaA hq] at hl
    have hnr : pkgrelPat l = false := by
      cases hq : pkgrelPat l
      · rfl
      · simp [excl_pkgrel_shaA hq] at hl
    have hnt : tagPat l = false := by
      cases hq : tagPat l
      · rfl
      · simp [excl_tag_shaA hq] at hl
    have hns : shaX86Pat l = false := by
      cases hq : shaX86Pat l
      · rfl
      · simp [excl_shaX_shaA hq] at hl
    rw [applySubs_eq, if_neg (by simp [hnp]), if_neg (by simp [hnr]),
      if_neg (by simp [hnt]), if_neg (by simp [hns]), if_pos hl]
  rw [if_neg htag2, if_neg hshaX2, if_neg hshaA2]
  have hdec2 : decide ((pkgverRepl v).drop 7 ≠ v.data) = false := by
    rw [hdrop7]
    simp
  rw [hdec2, hsplit, List.map_map]
  have hpt : (splitLines content.data).map
      ((applySubs false v t hx ha) ∘
        (applySubs (decide (cur.drop 7 ≠ v.data)) v t hx ha))
      = (splitLines content.data).map
        (applySubs (decide (cur.drop 7 ≠ v.data)) v t hx ha) := by
    apply List.map_congr_left
    intro a _
    exact applySubs_fix _ v t hx ha hv0 a
  rw [hpt, ← hdata]

theorem extract_release_info_correct_witness :
    extract_release_info w1release = .ok ("2.3.3", "v2.3.3", "aaa", "bbb") :=
  extract_release_info_correct w1release "v2.3.3" [w1x86, w1aarch] w1x86 w1aarch
    ['2'] ['3'] ['3'] "-x86_64.tar.gz".data
    rfl (by decide) rfl (by decide) (by decide) (by decide)
    (by decide) (by decide) (by decide) (by decide) (by decide) (by decide)
    (by decide) (by decide)

theorem extract_release_info_errors_witness :
    extract_release_info { tag_name := some "", assets := none }
      = .error "Release tag not found in API response" :=
  extract_release_info_errors.1 { tag_name := some "", assets := none } (Or.inr rfl)

theorem update_pkgbuild_pkgrel_reset_witness :
    (splitLines w3OutA.data)[1]? = some "pkgrel=5".data ∧
    (splitLines w3OutB.data)[1]? = some "pkgrel=1".data :=
  ⟨(update_pkgbuild_pkgrel_reset w3Input "v1" "h1" "h2" w3OutA w3OutB
      (by decide) (by decide) (by decide) (by decide) (by decide)
      (by rfl) (by rfl)).1 1 (by decide),
   (update_pkgbuild_pkgrel_reset w3Input "v1" "h1" "h2" w3OutA w3OutB
      (by decide) (by decide) (by decide) (by decide) (by decide)
      (by rfl) (by rfl)).2 1 (by decide)⟩

theorem update_pkgbuild_idempotent_witness :
    update_pkgbuild w3OutB "1.0.1" "v1" "h1" "h2" = .ok w3OutB :=
  update_pkgbuild_idempotent w3Input "1.0.1" "v1" "h1" "h2" w3OutB
    (by decide) (by decide) (by decide) (by decide) (by decide)
    (by decide) (by decide) (by decide) (by decide) (by rfl)

theorem update_pkgbuild_frame_witness :
    (splitLines w6Out.data).length = (splitLines w6Input.data).length ∧
    (splitLines w6Out.data)[0]? = some "# Maintainer".data :=
  ⟨(update_pkgbuild_frame w6Input "2.3.3" "v2.3.3" "abc123" "def456" w6Out
      (by decide) (by decide) (by decide) (by decide) (by rfl)).1,
   (update_pkgbuild_frame w6Input "2.3.3" "v2.3.3" "abc123" "def456" w6Out
      (by decide) (by decide) (by decide) (by decide) (by rfl)).2
     0 "# Maintainer".data (by decide) (by decide)⟩

theorem update_pkgbuild_rewrites_all_matching_witness :
    (splitLines w3OutB.data)[0]? = some (pkgverRepl "1.0.1") :=
  (update_pkgbuild_rewrites_all_matching w3Input "1.0.1" "v1" "h1" "h2" w3OutB
    "pkgver=1.0.0".data (by decide) (by decide) (by decide) (by decide)
    (by decide) (by rfl)).1 0 "pkgver=1.0.0".data (by decide) (by decide)

theorem extract_release_info_shape_witness :
    versionShape ("1.2.3" : String).data = true ∧
    (∃ ax aa : Asset,
      findAssets (c8release.assets.getD []) = (some ax, some aa) ∧
      "sha256:".data.isPrefixOf ax.getDigest.data = true ∧
      ("zz" : String) = ⟨ax.getDigest.data.drop 7⟩ ∧
      "sha256:".data.isPrefixOf aa.getDigest.data = true ∧
      ("ww" : String) = ⟨aa.getDigest.data.drop 7⟩) :=
  extract_release_info_shape c8release "1.2.3" "v1" "zz" "ww" rfl

theorem findAssets_last_match_wins_witness :
    extract_release_info w9release = .ok ("2.0.0", "vdup", "second", "third") :=
  findAssets_last_match_wins.2 w9release "vdup" [] [w9aarch] [] w9a w9b w9aarch
    "2.0.0".data rfl (by decide) (by rfl) (by decide) (by decide)
    (by decide) (by decide) (by decide) (by decide) (by decide)

theorem extract_release_info_unanchored_witness :
    extract_release_info w10release = .ok ("9.8.7", "v9", "hx", "hy") :=
  extract_release_info_unanchored w10release "v9" [w10x86, w10aarch]
    w10x86 w10aarch 4 "9.8.7".data rfl (by decide) rfl (by decide)
    (by decide) (by decide) (by decide) (by decide) (by decide)
